import Mathlib

/-!
Shallow embedding of the discovery-and-result-reconciliation core of the
`spock-test-runner-vscode` extension, together with theorems settling the
frozen claims about it.

Embedded sources:
* `src/services/TestResultParser.ts` — console/XML result extraction and
  reconciliation (`parseConsoleOutput`, `parseXmlReport`, `parseParameters`,
  `parseTestResults`).
* `TestDiscoveryService` (two variants found in the repository): the short
  variant recording `isAbstract`, and the long variant performing where-block
  and data-table discovery (`parseTestsInFile`, `findWhereBlock`,
  `parseDataTable`, `parseDataTableRow`, `parseValue`, `parseDataPipeSource`,
  `generateDisplayName`).

Modelling conventions:
* JavaScript strings are Lean `String`s; scanning works on `String.data`.
* JavaScript numbers are modelled as exact rationals (`ℚ`); `NaN` is modelled
  by `Option`/a dedicated constructor where the source can produce it.  All
  numbers the embedded code produces come from decimal literals, so the
  rational model is exact on every reachable value.
* The regular expressions of the source are embedded as hand-written
  backtracking scanners that follow the JavaScript semantics (greedy with
  backtracking, leftmost match) of the concrete patterns appearing in the
  source.
* Loops over line arrays become fuel-indexed structural recursions; the fuel
  supplied by the top-level wrappers always dominates the number of remaining
  iterations, so the fuelled recursion is an exact model of the source loop.
-/

/-- Whitespace class used by the JavaScript `\s` regex class and `trim` (ASCII
fragment; the source files only contain ASCII whitespace). -/
def jsIsWs (c : Char) : Bool :=
  c = ' ' || c = '\t' || c = '\n' || c = '\r' || c = '\x0b' || c = '\x0c'

/-- Digit class `\d`. -/
def jsIsDigit (c : Char) : Bool :=
  '0' ≤ c && c ≤ '9'

/-- Word-character class `\w` = `[A-Za-z0-9_]`. -/
def jsIsWord (c : Char) : Bool :=
  ('a' ≤ c && c ≤ 'z') || ('A' ≤ c && c ≤ 'Z') || jsIsDigit c || c = '_'

/-- Letter-or-underscore class `[a-zA-Z_]`. -/
def jsIsAlphaU (c : Char) : Bool :=
  ('a' ≤ c && c ≤ 'z') || ('A' ≤ c && c ≤ 'Z') || c = '_'

/-- JavaScript `String.prototype.trim`. -/
def jsTrim (s : String) : String :=
  ⟨((s.data.dropWhile jsIsWs).reverse.dropWhile jsIsWs).reverse⟩

/-- Prefix test on character lists (structural, kernel-reducible). -/
def listPre : List Char → List Char → Bool
  | [], _ => true
  | _ :: _, [] => false
  | p :: ps, c :: cs => p == c && listPre ps cs

/-- JavaScript `String.prototype.startsWith`. -/
def strStarts (s pre : String) : Bool :=
  listPre pre.data s.data

/-- JavaScript `String.prototype.endsWith`. -/
def strEnds (s suf : String) : Bool :=
  listPre suf.data.reverse s.data.reverse

/-- Core of string splitting: fuelled scan emitting the current cell whenever
the (non-empty) separator is a prefix of the remaining input. -/
def jsSplitCore (sep : List Char) : Nat → List Char → List Char → List (List Char)
  | _, cur, [] => [cur]
  | 0, cur, rest => [cur ++ rest]
  | fuel + 1, cur, c :: rest =>
    if listPre sep (c :: rest) then
      cur :: jsSplitCore sep fuel [] ((c :: rest).drop sep.length)
    else
      jsSplitCore sep fuel (cur ++ [c]) rest

/-- JavaScript `String.prototype.split` with a non-empty string separator
(non-overlapping, left to right). -/
def jsSplit (s : String) (sep : String) : List String :=
  if sep.data.isEmpty then [s]
  else (jsSplitCore sep.data s.data.length [] s.data).map (⟨·⟩)

/-- Number of non-overlapping occurrences of `sep` in `s`, as counted by
`s.match(new RegExp(escaped(sep), 'g'))` in the source. -/
def countOccs (s : String) (sep : String) : Nat :=
  (jsSplit s sep).length - 1

/-- Leading run of whitespace characters. -/
def wsRun (cs : List Char) : Nat :=
  (cs.takeWhile jsIsWs).length

/-- Leading run of characters satisfying `p`. -/
def runOf (p : Char → Bool) (cs : List Char) : Nat :=
  (cs.takeWhile p).length

/-- Backtracking helper: try `f n`, then `f (n-1)`, …, `f 0`, returning the
first success.  This realises a greedy (longest-first) regex quantifier. -/
def descTry {α : Type} : Nat → (Nat → Option α) → Option α
  | 0, f => f 0
  | n + 1, f => (f (n + 1)).orElse fun _ => descTry n f

/-- Lazy (shortest-first) counterpart: try `f 0`, `f 1`, …, `f n`. -/
def ascTry {α : Type} : Nat → (Nat → Option α) → Option α
  | 0, f => f 0
  | n + 1, f => (ascTry n fun k => f k).orElse fun _ => f (n + 1)

/-- Digits to a natural number. -/
def digitsToNat (cs : List Char) : Nat :=
  cs.foldl (fun a c => a * 10 + (c.toNat - '0'.toNat)) 0

/-- Typed values produced by the two value-coercion paths of the source.
JavaScript numbers are exact rationals here; `infv` models the two infinities
(producible by `Number("Infinity")`), `person` models the two-field record
built by `parseDataPipeSource` for `new Person(...)` elements. -/
inductive PValue where
  | num (q : ℚ)
  | infv (neg : Bool)
  | boolV (b : Bool)
  | str (s : String)
  | nullV
  | person (pname : String) (age : Int)
deriving DecidableEq, Repr, Inhabited

/-- Result of JavaScript `Number(...)` when it is not `NaN`. -/
inductive JsNum where
  | fin (q : ℚ)
  | inf (neg : Bool)
deriving DecidableEq, Repr

/-- Parse an unsigned decimal numeric literal `digits [. digits] [e[±]digits]`
(also `.digits`), returning its exact value; `none` models `NaN`. -/
def parseDecimalBody (cs : List Char) : Option ℚ :=
  let ip := cs.takeWhile jsIsDigit
  let rest := cs.drop ip.length
  let withFrac : Option (ℚ × List Char) :=
    match rest with
    | '.' :: r2 =>
      let fp := r2.takeWhile jsIsDigit
      if ip.isEmpty && fp.isEmpty then none
      else some (((digitsToNat ip : ℚ) + (digitsToNat fp : ℚ) / ((10 : ℚ) ^ fp.length)),
                 r2.drop fp.length)
    | _ =>
      if ip.isEmpty then none else some ((digitsToNat ip : ℚ), rest)
  match withFrac with
  | none => none
  | some (base, r3) =>
    match r3 with
    | [] => some base
    | e :: r4 =>
      if e = 'e' || e = 'E' then
        let (sgn, r5) : Bool × List Char :=
          match r4 with
          | '+' :: r5 => (false, r5)
          | '-' :: r5 => (true, r5)
          | _ => (false, r4)
        let ed := r5.takeWhile jsIsDigit
        if ed.isEmpty then none
        else if (r5.drop ed.length).isEmpty then
          let ex := digitsToNat ed
          some (if sgn then base / ((10 : ℚ) ^ ex) else base * ((10 : ℚ) ^ ex))
        else none
      else none

/-- Hex digit predicate and value. -/
def jsIsHexDigit (c : Char) : Bool :=
  jsIsDigit c || ('a' ≤ c && c ≤ 'f') || ('A' ≤ c && c ≤ 'F')

/-- Value of a hex digit. -/
def hexVal (c : Char) : Nat :=
  if jsIsDigit c then c.toNat - '0'.toNat
  else if 'a' ≤ c && c ≤ 'f' then c.toNat - 'a'.toNat + 10
  else c.toNat - 'A'.toNat + 10

/-- Digits of a given base to a natural number. -/
def digitsToNatBase (b : Nat) (cs : List Char) : Nat :=
  cs.foldl (fun a c => a * b + hexVal c) 0

/-- JavaScript `Number(string)` conversion (StringNumericLiteral grammar):
trimmed input, empty → 0, radix-prefixed integers (no sign allowed),
optionally signed `Infinity` or decimal literal; `none` models `NaN`. -/
def jsNumber (s : String) : Option JsNum :=
  let t := (jsTrim s).data
  match t with
  | [] => some (.fin 0)
  | '0' :: x :: rest =>
    if x = 'x' || x = 'X' then
      if !rest.isEmpty && rest.all jsIsHexDigit then some (.fin (digitsToNatBase 16 rest)) else none
    else if x = 'b' || x = 'B' then
      if !rest.isEmpty && rest.all (fun c => c = '0' || c = '1') then
        some (.fin (digitsToNatBase 2 rest)) else none
    else if x = 'o' || x = 'O' then
      if !rest.isEmpty && rest.all (fun c => '0' ≤ c && c ≤ '7') then
        some (.fin (digitsToNatBase 8 rest)) else none
    else
      (parseDecimalBody t).map .fin
  | _ =>
    let (neg, body) : Bool × List Char :=
      match t with
      | '+' :: b => (false, b)
      | '-' :: b => (true, b)
      | _ => (false, t)
    if body = "Infinity".data then some (.inf neg)
    else (parseDecimalBody body).map fun q => .fin (if neg then -q else q)

/-- JavaScript `slice(1, -1)` used to strip surrounding quotes. -/
def jsSliceInner (s : String) : String :=
  ⟨(s.data.drop 1).take (s.data.length - 2)⟩

/-- JavaScript object property assignment on an insertion-ordered object:
overwrite in place if the key exists, else append. -/
def assocSet (m : List (String × PValue)) (k : String) (v : PValue) :
    List (String × PValue) :=
  if m.any (fun kv => kv.1 = k) then
    m.map fun kv => if kv.1 = k then (k, v) else kv
  else m ++ [(k, v)]

/-- Value coercion applied to one parameter token by
`TestResultParser.parseParameters` (the inline `if` chain of the source:
`true`/`false`, then `!isNaN(Number(value)) && value !== ''`, then
double-quoted, then single-quoted, else the raw token). -/
def coerceParamValue (value : String) : PValue :=
  if value = "true" then .boolV true
  else if value = "false" then .boolV false
  else if (jsNumber value).isSome && value ≠ "" then
    match jsNumber value with
    | some (.fin q) => .num q
    | some (.inf n) => .infv n
    | none => .str value
  else if strStarts value "\"" && strEnds value "\"" then .str (jsSliceInner value)
  else if strStarts value "\x27" && strEnds value "\x27" then .str (jsSliceInner value)
  else .str value

/-- Index of the first `:` in a string, as `String.prototype.indexOf` (−1 when
absent is modelled by `none`). -/
def firstColonIdx (s : String) : Option Nat :=
  s.data.findIdx? (fun c => c = ':')

/-- `TestResultParser.parseParameters`: split on commas, trim each pair, keep
pairs whose first `:` is at a positive index, coerce values. -/
def parseParameters (parametersString : String) : List (String × PValue) :=
  let pairs := (jsSplit parametersString ",").map jsTrim
  pairs.foldl
    (fun parameters pair =>
      match firstColonIdx pair with
      | some ci =>
        if 0 < ci then
          let key := jsTrim ⟨pair.data.take ci⟩
          let value := jsTrim ⟨pair.data.drop (ci + 1)⟩
          assocSet parameters key (coerceParamValue value)
        else parameters
      | none => parameters)
    []

/-- Match of `/^-?\d+$/`. -/
def intTokenMatch (cs : List Char) : Bool :=
  match cs with
  | '-' :: rest => !rest.isEmpty && rest.all jsIsDigit
  | _ => !cs.isEmpty && cs.all jsIsDigit

/-- Match of `/^-?\d+\.\d+$/`. -/
def floatTokenMatch (cs : List Char) : Bool :=
  let body := match cs with
    | '-' :: rest => rest
    | _ => cs
  let ip := body.takeWhile jsIsDigit
  match body.drop ip.length with
  | '.' :: fp => !ip.isEmpty && !fp.isEmpty && fp.all jsIsDigit
  | _ => false

/-- Exact value of a `/^-?\d+$/` token (`parseInt(value, 10)`). -/
def intTokenValue (cs : List Char) : Int :=
  match cs with
  | '-' :: rest => -(digitsToNat rest : Int)
  | _ => (digitsToNat cs : Int)

/-- Exact value of a `/^-?\d+\.\d+$/` token (`parseFloat(value)`). -/
def floatTokenValue (cs : List Char) : ℚ :=
  let (neg, body) : Bool × List Char :=
    match cs with
    | '-' :: rest => (true, rest)
    | _ => (false, cs)
  let ip := body.takeWhile jsIsDigit
  let fp := (body.drop (ip.length + 1)).takeWhile jsIsDigit
  let mag : ℚ := (digitsToNat ip : ℚ) + (digitsToNat fp : ℚ) / ((10 : ℚ) ^ fp.length)
  if neg then -mag else mag

/-- `TestDiscoveryService.parseValue`: integer and float regexes, booleans,
`null` (to the null value, unlike the console path), quote stripping, raw. -/
def parseValue (value : String) : PValue :=
  if intTokenMatch value.data then .num (intTokenValue value.data)
  else if floatTokenMatch value.data then .num (floatTokenValue value.data)
  else if value = "true" then .boolV true
  else if value = "false" then .boolV false
  else if value = "null" then .nullV
  else if (strStarts value "\"" && strEnds value "\"") ||
          (strStarts value "\x27" && strEnds value "\x27") then
    .str (jsSliceInner value)
  else .str value

/-- Separator candidates of `parseDataTableRow`, in the listed priority
order of the source. -/
def tableSeparators : List String :=
  ["||", ";;", "|", ";"]

/-- Selection loop of `parseDataTableRow`: keep the first separator whose
occurrence count strictly exceeds the running maximum (initially `''`/0). -/
def bestSeparator (line : String) : String :=
  (tableSeparators.foldl
    (fun best sep =>
      let count := countOccs line sep
      if count > best.2 then (sep, count) else best)
    ("", 0)).1

/-- `TestDiscoveryService.parseDataTableRow`: split on the best separator,
trim cells, drop empty cells; no separator at all yields no cells. -/
def parseDataTableRow (line : String) : List String :=
  let bestSep := bestSeparator line
  if bestSep ≠ "" then
    ((jsSplit line bestSep).map jsTrim).filter (fun cell => 0 < cell.length)
  else []

/-- Position of a separator in the priority order of the source list. -/
def sepPriorityIdx (s : String) : Nat :=
  if s = "||" then 0 else if s = ";;" then 1 else if s = "|" then 2
  else if s = ";" then 3 else 4

/-- Line/column span (the `vscode.Range(i, 0, i, line.length)` values built by
the source; lengths are UTF-16 lengths, equal to character counts on the ASCII
inputs modelled here). -/
structure SrcRange where
  startLine : Nat
  startChar : Nat
  endLine : Nat
  endChar : Nat
deriving DecidableEq, Repr, Inhabited

/-- Range covering one whole source line. -/
def lineRange (i : Nat) (line : String) : SrcRange :=
  ⟨i, 0, i, line.data.length⟩

/-- `SpockDataIteration` of the discovery service. -/
structure SpockDataIteration where
  index : Nat
  dataValues : List (String × PValue)
  displayName : String
  range : SrcRange
  originalMethodName : String
deriving DecidableEq, Repr, Inhabited

/-- Character membership in a string. -/
def strContainsChar (s : String) (c : Char) : Bool :=
  s.data.any (fun x => x = c)

/-- JavaScript `String.prototype.includes` for a non-empty literal. -/
def strContainsSub (s sub : String) : Bool :=
  1 < (jsSplit s sub).length

/-- Join strings with a separator (JavaScript `Array.prototype.join`). -/
def joinWith (sep : String) : List String → String
  | [] => ""
  | [x] => x
  | x :: xs => x ++ sep ++ joinWith sep xs

/-- Decimal digit characters of a natural number (fuelled, kernel-reducible). -/
def natDigits : Nat → Nat → List Char
  | 0, _ => []
  | fuel + 1, n =>
    if n < 10 then [Char.ofNat ('0'.toNat + n)]
    else natDigits fuel (n / 10) ++ [Char.ofNat ('0'.toNat + n % 10)]

/-- Decimal rendering of a natural number. -/
def natToJsString (n : Nat) : String :=
  ⟨natDigits (n + 1) n⟩

/-- JavaScript `String(i)` for an integer value. -/
def intToJsString (i : Int) : String :=
  if i < 0 then "-" ++ natToJsString i.natAbs else natToJsString i.natAbs

/-- Least `k ≤ fuel` such that `q * 10^k` is integral, if any. -/
def decExpSearch (q : ℚ) : Nat → Option Nat
  | 0 => if (q * (10 : ℚ) ^ (0 : Nat)).den = 1 then some 0 else none
  | fuel + 1 =>
    match decExpSearch q fuel with
    | some k => some k
    | none => if (q * (10 : ℚ) ^ (fuel + 1)).den = 1 then some (fuel + 1) else none

/-- JavaScript `String(x)` for a finite number.  Every number value the
embedded code constructs comes from a decimal literal, so it has a
terminating decimal expansion, rendered here without exponent notation (the
exponent-notation thresholds of JavaScript are outside the values reachable
in this embedding); other rationals fall back to a fraction spelling. -/
def ratToJsString (q : ℚ) : String :=
  if q.den = 1 then intToJsString q.num
  else
    match decExpSearch q 40 with
    | some k =>
      let scaled := (q * (10 : ℚ) ^ k).num
      let sign := if scaled < 0 then "-" else ""
      let ds := (natToJsString scaled.natAbs).data
      let ds := if ds.length ≤ k then List.replicate (k + 1 - ds.length) '0' ++ ds else ds
      sign ++ ⟨ds.take (ds.length - k)⟩ ++ "." ++ ⟨ds.drop (ds.length - k)⟩
    | none => intToJsString q.num ++ "/" ++ natToJsString q.den

/-- JavaScript `String(value)` over the modelled value type (template-literal
interpolation `${value}` in the source). -/
def pvalueToJsString : PValue → String
  | .num q => ratToJsString q
  | .infv true => "-Infinity"
  | .infv false => "Infinity"
  | .boolV true => "true"
  | .boolV false => "false"
  | .str s => s
  | .nullV => "null"
  | .person _ _ => "[object Object]"

/-- Lookup in an insertion-ordered object. -/
def assocGet (m : List (String × PValue)) (k : String) : Option PValue :=
  (m.find? (fun kv => kv.1 = k)).map (fun kv => kv.2)

/-- One pass of `String.prototype.replace` with the global placeholder regex
`#([a-zA-Z_][a-zA-Z0-9_.]*)`: replace a matched placeholder by the stringified
value when the key is present (`!== undefined`), keep the match verbatim
otherwise, and continue after the matched segment. -/
def replacePlaceholders (dv : List (String × PValue)) : Nat → List Char → List Char
  | _, [] => []
  | 0, cs => cs
  | fuel + 1, c :: rest =>
    if c = '#' then
      match rest with
      | d :: r2 =>
        if jsIsAlphaU d then
          let tailChars := r2.takeWhile (fun ch => jsIsWord ch || ch = '.')
          let key : String := ⟨d :: tailChars⟩
          let after := r2.drop tailChars.length
          match assocGet dv key with
          | some v => (pvalueToJsString v).data ++ replacePlaceholders dv fuel after
          | none => '#' :: d :: tailChars ++ replacePlaceholders dv fuel after
        else '#' :: replacePlaceholders dv fuel rest
      | [] => ['#']
    else c :: replacePlaceholders dv fuel rest

/-- `TestDiscoveryService.generateDisplayName`: substitute `#placeholder`
tokens when the method name contains `#`, otherwise synthesize
`name [k: v, ...]` preserving column order. -/
def generateDisplayName (methodName : String) (dataValues : List (String × PValue)) : String :=
  if strContainsChar methodName '#' then
    ⟨replacePlaceholders dataValues methodName.data.length methodName.data⟩
  else
    let valuePairs := joinWith ", "
      (dataValues.map (fun kv => kv.1 ++ ": " ++ pvalueToJsString kv.2))
    methodName ++ " [" ++ valuePairs ++ "]"

/-- Tail of a label match: `\s*:\s*$`. -/
def labelTail (rest : List Char) : Bool :=
  match rest.drop (wsRun rest) with
  | ':' :: r2 => (r2.dropWhile jsIsWs).isEmpty
  | _ => false

/-- Match of `WHERE_BLOCK_REGEX` = `/^where\s*:\s*$/` (applied to the trimmed
line by the source). -/
def whereLabelMatch (s : String) : Bool :=
  listPre "where".data s.data && labelTail (s.data.drop 5)

/-- Match of `BLOCK_LABEL_REGEX` = `/^(given|when|then|expect|where)\s*:\s*$/`. -/
def blockLabelMatch (s : String) : Bool :=
  let tryLit (lit : String) : Bool :=
    listPre lit.data s.data && labelTail (s.data.drop lit.data.length)
  tryLit "given" || tryLit "when" || tryLit "then" || tryLit "expect" || tryLit "where"

/-- Match of `DATA_PIPE_REGEX` = `/^(\s*)(\w+)\s*<<\s*(.+)$/` on the raw line,
returning the variable (group 2) and the trailing expression (group 3).  The
`.`-class excludes CR/LF (so a CR/LF anywhere in the non-whitespace remainder
defeats the match), and `\s*` is greedy with backtracking; the only
backtracking that can matter is handing one trailing whitespace character to
the non-empty group 3. -/
def dataPipeMatch (line : String) : Option (String × String) :=
  let cs := line.data
  let rest := cs.drop (wsRun cs)
  let ident := rest.takeWhile jsIsWord
  if ident.isEmpty then none
  else
    let r2 := rest.drop ident.length
    match r2.drop (wsRun r2) with
    | '<' :: '<' :: r4 =>
      let w3 := wsRun r4
      if w3 < r4.length then
        if (r4.drop w3).any (fun c => c = '\n' || c = '\r') then none
        else some (⟨ident⟩, ⟨r4.drop w3⟩)
      else if h : r4 ≠ [] then
        let last := r4.getLast h
        if last = '\n' || last = '\r' then none
        else some (⟨ident⟩, ⟨r4.drop (r4.length - 1)⟩)
      else none
    | _ => none

/-- Global scan for `/new Person\([^)]+\)/g`: at each position, a match is the
literal `new Person(`, at least one non-`)` character, then `)`; scanning
resumes after a match, or one character later after a failure. -/
def personScan : Nat → List Char → List String
  | 0, _ => []
  | _, [] => []
  | fuel + 1, c :: rest =>
    if listPre "new Person(".data (c :: rest) then
      let after := (c :: rest).drop 11
      let body := after.takeWhile (fun ch => ch ≠ ')')
      match after.drop body.length with
      | ')' :: r2 =>
        if body.isEmpty then personScan fuel rest
        else ("new Person(" ++ ⟨body⟩ ++ ")") :: personScan fuel r2
      | _ => personScan fuel rest
    else personScan fuel rest

/-- Leftmost-match search: try the matcher at every suffix, left to right. -/
def scanFirst {α : Type} (f : List Char → Option α) : Nat → List Char → Option α
  | 0, _ => none
  | fuel + 1, cs =>
    match f cs with
    | some a => some a
    | none =>
      match cs with
      | [] => none
      | _ :: rest => scanFirst f fuel rest

/-- Matcher for `/name:\s*"([^"]+)"/` at a fixed position. -/
def nameAttrHere (cs : List Char) : Option String :=
  if listPre "name:".data cs then
    let r1 := cs.drop 5
    match r1.drop (wsRun r1) with
    | '"' :: r2 =>
      let body := r2.takeWhile (fun ch => ch ≠ '"')
      match r2.drop body.length with
      | '"' :: _ => if body.isEmpty then none else some ⟨body⟩
      | _ => none
    | _ => none
  else none

/-- Matcher for `/age:\s*(\d+)/` at a fixed position. -/
def ageAttrHere (cs : List Char) : Option Nat :=
  if listPre "age:".data cs then
    let r1 := cs.drop 4
    let r2 := r1.drop (wsRun r1)
    let ds := r2.takeWhile jsIsDigit
    if ds.isEmpty then none else some (digitsToNat ds)
  else none

/-- Extraction of the two-field record from one `new Person(...)` match:
missing attributes default to `"Unknown"` / `0`. -/
def parsePersonStr (m : String) : PValue :=
  let nm := (scanFirst nameAttrHere (m.data.length + 1) m.data).getD "Unknown"
  let ag := (scanFirst ageAttrHere (m.data.length + 1) m.data).map Int.ofNat
  .person nm (ag.getD 0)

/-- `TestDiscoveryService.parseDataPipeSource`: bracketed array literals are
split into elements (with the `new Person` special case); anything else is
returned whole as a single element. -/
def parseDataPipeSource (dataSource : String) : List PValue :=
  if strStarts dataSource "[" && strEnds dataSource "]" then
    let content := jsTrim (jsSliceInner dataSource)
    if content = "" then []
    else
      let personMatches :=
        if strContainsSub content "new Person" then personScan content.data.length content.data
        else []
      if !personMatches.isEmpty then personMatches.map parsePersonStr
      else ((jsSplit content ",").map jsTrim).map parseValue
  else [.str dataSource]

/-- Line access (`lines[i]`); all accesses of the embedded loops are in
bounds, so the default value is never produced. -/
def lineAt (lines : List String) (i : Nat) : String :=
  lines.getD i ""

/-- Multi-line array collection of the pipe branch of `parseDataTable`:
`while (j <= endLine && !arrayContent.includes(']')) arrayContent += ' ' + lines[j].trim()`. -/
def collectArray (lines : List String) (endLine : Nat) : Nat → Nat → String → String
  | 0, _, acc => acc
  | fuel + 1, j, acc =>
    if j ≤ endLine && !strContainsChar acc ']' then
      collectArray lines endLine fuel (j + 1) (acc ++ " " ++ jsTrim (lineAt lines j))
    else acc

/-- Count of `{` minus count of `}` on a line
(`TestDiscoveryService.countBraceDelta`). -/
def countBraceDelta (text : String) : Int :=
  (text.data.countP (fun c => c = '\x7b') : Int) -
    (text.data.countP (fun c => c = '\x7d') : Int)

/-- State of the line scan of `parseDataTable`: header variables (source field
`variables`, renamed for Lean), first-row flag, collected data rows, and
iterations pushed so far (pipe iterations are pushed during the scan; table
iterations only after it). -/
structure PdtState where
  tableVars : List String
  isFirstRow : Bool
  dataTable : List (List String)
  iterations : List SpockDataIteration
deriving Repr

/-- Line scan of `parseDataTable` over `startLine+1 .. endLine`. -/
def pdtLoop (lines : List String) (endLine : Nat) (methodName : String) :
    Nat → Nat → PdtState → PdtState
  | 0, _, st => st
  | fuel + 1, i, st =>
    if i ≤ endLine then
      let line := lineAt lines i
      let trimmedLine := jsTrim line
      if trimmedLine = "" || strStarts trimmedLine "//" then
        pdtLoop lines endLine methodName fuel (i + 1) st
      else
        match dataPipeMatch line with
        | some (variableName, g3) =>
          let dataSource0 := jsTrim g3
          let dataSource :=
            if strStarts dataSource0 "[" then
              collectArray lines endLine (lines.length + 1) (i + 1) dataSource0
            else dataSource0
          let dataValues := parseDataPipeSource dataSource
          let its := dataValues.foldl
            (fun its v =>
              its ++ [{ index := its.length,
                        dataValues := [(variableName, v)],
                        displayName := generateDisplayName methodName [(variableName, v)],
                        range := lineRange i line,
                        originalMethodName := methodName }])
            st.iterations
          pdtLoop lines endLine methodName fuel (i + 1) { st with iterations := its }
        | none =>
          let row := parseDataTableRow line
          if 0 < row.length then
            if st.isFirstRow then
              pdtLoop lines endLine methodName fuel (i + 1)
                { st with tableVars := row, isFirstRow := false }
            else
              pdtLoop lines endLine methodName fuel (i + 1)
                { st with dataTable := st.dataTable ++ [row] }
          else
            pdtLoop lines endLine methodName fuel (i + 1) st
    else st

/-- `TestDiscoveryService.parseDataTable`: scan the block body, then convert
the collected data rows, skipping `_` placeholder columns, appending after any
pipe-produced iterations. -/
def parseDataTable (lines : List String) (startLine endLine : Nat) (methodName : String) :
    List SpockDataIteration :=
  let st := pdtLoop lines endLine methodName (endLine + 1) (startLine + 1)
    { tableVars := [], isFirstRow := true, dataTable := [], iterations := [] }
  st.dataTable.enum.foldl
    (fun its rowWithIdx =>
      let rowIdx := rowWithIdx.1
      let row := rowWithIdx.2
      let dataValues := st.tableVars.enum.foldl
        (fun dv varWithIdx =>
          let colIndex := varWithIdx.1
          let varCell := varWithIdx.2
          if colIndex < row.length then
            let trimmedVar := jsTrim varCell
            if trimmedVar ≠ "_" then
              assocSet dv trimmedVar (parseValue (jsTrim (row.getD colIndex "")))
            else dv
          else dv)
        []
      its ++ [{ index := its.length,
                dataValues := dataValues,
                displayName := generateDisplayName methodName dataValues,
                range := lineRange (startLine + 1 + rowIdx)
                  (lineAt lines (startLine + 1 + rowIdx)),
                originalMethodName := methodName }])
    st.iterations

/-- Terminating-line condition of the inner loop of `findWhereBlock`: the
line trims to `}`, or trims to the empty string and is the very last line. -/
def fwbTerm (lines : List String) (j : Nat) : Prop :=
  jsTrim (lineAt lines j) = "\x7d" ∨ (jsTrim (lineAt lines j) = "" ∧ j = lines.length - 1)

instance (lines : List String) (j : Nat) : Decidable (fwbTerm lines j) := by
  unfold fwbTerm
  infer_instance

/-- Inner loop of `findWhereBlock`: from line `j` onward, the block ends just
before the first line satisfying `fwbTerm`; reaching the end of the lines
without one gives no block (`break` / `return null` in the source). -/
def fwbInner (lines : List String) (whereStart : Nat) : Nat → Nat → Option (Nat × Nat)
  | 0, _ => none
  | fuel + 1, j =>
    if j < lines.length then
      if fwbTerm lines j then some (whereStart, j - 1)
      else fwbInner lines whereStart fuel (j + 1)
    else none

/-- One line of the brace-balance scan of `findWhereBlock`: add the line's
brace delta and set the in-method flag once a positive delta is seen. -/
def fwbStep (st : Int × Bool) (line : String) : Int × Bool :=
  (st.1 + countBraceDelta line, if 0 < countBraceDelta line then true else st.2)

/-- Fold of `fwbStep` over a slice of lines. -/
def scanSlice (st : Int × Bool) (ls : List String) : Int × Bool :=
  ls.foldl fwbStep st

/-- Brace-balance state of `findWhereBlock` after processing lines
`s, s+1, …, k-1` starting from the method start line `s`. -/
def fwbState (lines : List String) (s k : Nat) : Int × Bool :=
  scanSlice (0, false) ((lines.drop s).take (k - s))

/-- Outer loop of `findWhereBlock`: track the brace balance from the method
start line; once inside the method, stop when the balance returns to zero, and
enter the inner scan at the first line matching `/^where\s*:\s*$/`. -/
def fwbOuter (lines : List String) : Nat → Nat → Int × Bool → Option (Nat × Nat)
  | 0, _, _ => none
  | fuel + 1, i, st =>
    if i < lines.length then
      if (fwbStep st (lineAt lines i)).2 = true ∧ (fwbStep st (lineAt lines i)).1 ≤ 0 then
        none
      else if (fwbStep st (lineAt lines i)).2 = true ∧
          whereLabelMatch (jsTrim (lineAt lines i)) = true then
        fwbInner lines i lines.length (i + 1)
      else fwbOuter lines fuel (i + 1) (fwbStep st (lineAt lines i))
    else none

/-- `TestDiscoveryService.findWhereBlock`. -/
def findWhereBlock (lines : List String) (methodStartLine : Nat) : Option (Nat × Nat) :=
  fwbOuter lines lines.length methodStartLine (0, false)

/-- Brace-scan state relative to a start position and initial state: the
state after processing lines `i … k` (inclusive). -/
def fwbStateFrom (lines : List String) (st : Int × Bool) (i k : Nat) : Int × Bool :=
  scanSlice st ((lines.drop i).take (k + 1 - i))

/-- Break condition of the outer loop of `findWhereBlock` at line `k`
(checked first on every line): the scan is inside the method and the balance
has returned to zero or below. -/
def fwbBreakAt (lines : List String) (st : Int × Bool) (i k : Nat) : Prop :=
  (fwbStateFrom lines st i k).2 = true ∧ (fwbStateFrom lines st i k).1 ≤ 0

/-- Fire condition of the outer loop of `findWhereBlock` at line `k`: the
scan is inside the method and the trimmed line matches the where label. -/
def fwbFireAt (lines : List String) (st : Int × Bool) (i k : Nat) : Prop :=
  (fwbStateFrom lines st i k).2 = true ∧
    whereLabelMatch (jsTrim (lineAt lines k)) = true

instance (lines : List String) (st : Int × Bool) (i k : Nat) :
    Decidable (fwbBreakAt lines st i k) := by
  unfold fwbBreakAt
  infer_instance

instance (lines : List String) (st : Int × Bool) (i k : Nat) :
    Decidable (fwbFireAt lines st i k) := by
  unfold fwbFireAt
  infer_instance

/-- `TestIterationResult` of the result parser; `errorInfo` models the
optional `{ error: string }` record, `duration = none` models `NaN`. -/
structure TestIterationResult where
  index : Nat
  displayName : String
  parameters : List (String × PValue)
  success : Bool
  duration : Option ℚ
  output : String
  errorInfo : Option String
deriving DecidableEq, Repr, Inhabited

/-- The three alternatives of the status capture group
`(PASSED|FAILED|SKIPPED)`. -/
inductive TStatus where
  | passed
  | failed
  | skipped
deriving DecidableEq, Repr

/-- Captured text of a status alternative. -/
def statusText : TStatus → String
  | .passed => "PASSED"
  | .failed => "FAILED"
  | .skipped => "SKIPPED"

/-- Match of the alternation `(PASSED|FAILED|SKIPPED)` at a position, tried in
the listed order. -/
def statusHere (r : List Char) : Option TStatus :=
  if listPre "PASSED".data r then some .passed
  else if listPre "FAILED".data r then some .failed
  else if listPre "SKIPPED".data r then some .skipped
  else none

/-- No CR/LF characters (the JavaScript `.` class rejects them). -/
def dotFree (cs : List Char) : Bool :=
  cs.all (fun c => c ≠ '\n' && c ≠ '\r')

/-- Match of the part of the console iteration regex after the `>` chosen by
`^.*>`, i.e. `\s*NAME\s*\[([^\]]+),\s*#(\d+)\]\s*(PASSED|FAILED|SKIPPED)`,
with greedy backtracking on every quantifier. -/
def matchAfterGt (testName : String) (rest : List Char) :
    Option (String × Nat × TStatus) :=
  descTry (wsRun rest) fun w1 =>
    let r1 := rest.drop w1
    if listPre testName.data r1 then
      let r2 := r1.drop testName.data.length
      descTry (wsRun r2) fun w2 =>
        match r2.drop w2 with
        | '[' :: r3 =>
          let m := (r3.takeWhile (fun c => c ≠ ']')).length
          if m = 0 then none
          else
            descTry (m - 1) fun d =>
              let len := d + 1
              let grp1 : String := ⟨r3.take len⟩
              match r3.drop len with
              | ',' :: r4 =>
                descTry (wsRun r4) fun w3 =>
                  match r4.drop w3 with
                  | '#' :: r5 =>
                    let ds := r5.takeWhile jsIsDigit
                    if ds.isEmpty then none
                    else
                      match r5.drop ds.length with
                      | ']' :: r6 =>
                        descTry (wsRun r6) fun w4 =>
                          (statusHere (r6.drop w4)).map fun st =>
                            (grp1, digitsToNat ds, st)
                      | _ => none
                  | _ => none
              | _ => none
        | _ => none
    else none

/-- Match of the console iteration regex
`^.*>\s*NAME\s*\[([^\]]+),\s*#(\d+)\]\s*(PASSED|FAILED|SKIPPED)` built by
`parseConsoleOutput` (the test name is regex-escaped by the source, hence
matched literally here): `^.*>` anchors the match at a `>` whose prefix is
CR/LF-free, tried from the rightmost `>` (greedy `.*`). -/
def matchIterationLine (testName line : String) : Option (String × Nat × TStatus) :=
  let cs := line.data
  descTry cs.length fun k =>
    if cs.getD k 'x' = '>' ∧ k < cs.length ∧ dotFree (cs.take k) then
      matchAfterGt testName (cs.drop (k + 1))
    else none

/-- Construction of one console-derived `TestIterationResult` from a matched
line (body of the `if (iterationMatch)` block of `parseConsoleOutput`). -/
def consoleLineResult (testName line : String) : Option TestIterationResult :=
  (matchIterationLine testName line).map fun m =>
    let parametersString := m.1
    let index := m.2.1
    let status := statusText m.2.2
    { index := index,
      displayName := testName ++ " [" ++ parametersString ++ ", #" ++ natToJsString index ++ "]",
      parameters := parseParameters parametersString,
      success := status = "PASSED",
      duration := some 0,
      output := jsTrim line,
      errorInfo :=
        if status = "PASSED" then none
        else some ("Iteration " ++ natToJsString index ++ " " ++ status) }

/-- Loop body of the result-collecting folds of the source: push the built
result when the matcher fires, keep the accumulator otherwise. -/
def appendIfMatched {α β : Type} (f : α → Option β) (res : List β) (a : α) : List β :=
  match f a with
  | some r => res ++ [r]
  | none => res

/-- `TestResultParser.parseConsoleOutput`: scan every line of the output,
collecting one result per line matching the iteration pattern. -/
def parseConsoleOutput (output testName : String) : List TestIterationResult :=
  (jsSplit output "\n").foldl (appendIfMatched (consoleLineResult testName)) []

/-- JavaScript `parseFloat`: longest valid decimal-literal prefix after
leading whitespace and an optional sign; `none` models `NaN`.  (The
`Infinity` prefix form is not modelled; the `time` attributes reaching this
code are decimal or empty.) -/
def jsParseFloat (s : String) : Option ℚ :=
  let cs := s.data.dropWhile jsIsWs
  let (neg, body) : Bool × List Char :=
    match cs with
    | '+' :: b => (false, b)
    | '-' :: b => (true, b)
    | _ => (false, cs)
  let ip := body.takeWhile jsIsDigit
  let r1 := body.drop ip.length
  let (fp, r2) : List Char × List Char :=
    match r1 with
    | '.' :: t => (t.takeWhile jsIsDigit, t.drop (t.takeWhile jsIsDigit).length)
    | _ => ([], r1)
  if ip.isEmpty && fp.isEmpty then none
  else
    let base : ℚ := (digitsToNat ip : ℚ) + (digitsToNat fp : ℚ) / ((10 : ℚ) ^ fp.length)
    let withExp : ℚ :=
      match r2 with
      | e :: t =>
        if e = 'e' || e = 'E' then
          let (esgn, t2) : Bool × List Char :=
            match t with
            | '+' :: u => (false, u)
            | '-' :: u => (true, u)
            | _ => (false, t)
          let ed := t2.takeWhile jsIsDigit
          if ed.isEmpty then base
          else if esgn then base / ((10 : ℚ) ^ digitsToNat ed)
          else base * ((10 : ℚ) ^ digitsToNat ed)
        else base
      | [] => base
    some (if neg then -withExp else withExp)

/-- Match of the testcase-extraction regex
`<testcase\s+name="([^"]+)"[^>]*classname="([^"]+)"[^>]*time="([^"]*)"[^>]*>`
at a fixed position, returning the three captures and the remaining input
after the match (the `lastIndex` of the global scan).  The `[^>]*` segments
are greedy with backtracking, realised by longest-first searches. -/
def matchTestcaseHere (cs : List Char) : Option ((String × String × String) × List Char) :=
  if listPre "<testcase".data cs then
    let r1 := cs.drop 9
    let w := wsRun r1
    if w = 0 then none
    else if listPre "name=\"".data (r1.drop w) then
      let r2 := (r1.drop w).drop 6
      let nameCap := r2.takeWhile (fun c => c ≠ '"')
      if nameCap.isEmpty then none
      else
        match r2.drop nameCap.length with
        | '"' :: r3 =>
          descTry (runOf (fun c => c ≠ '>') r3) fun g1 =>
            if listPre "classname=\"".data (r3.drop g1) then
              let r4 := (r3.drop g1).drop 11
              let clsCap := r4.takeWhile (fun c => c ≠ '"')
              if clsCap.isEmpty then none
              else
                match r4.drop clsCap.length with
                | '"' :: r5 =>
                  descTry (runOf (fun c => c ≠ '>') r5) fun g2 =>
                    if listPre "time=\"".data (r5.drop g2) then
                      let r6 := (r5.drop g2).drop 6
                      let timeCap := r6.takeWhile (fun c => c ≠ '"')
                      match r6.drop timeCap.length with
                      | '"' :: r7 =>
                        let g3 := runOf (fun c => c ≠ '>') r7
                        match r7.drop g3 with
                        | '>' :: r8 => some ((⟨nameCap⟩, ⟨clsCap⟩, ⟨timeCap⟩), r8)
                        | _ => none
                      | _ => none
                    else none
                | _ => none
            else none
        | _ => none
    else none
  else none

/-- Global scan with the testcase regex (`while (match = regex.exec(...))`):
collect every match left to right, resuming after each match. -/
def scanTestcases : Nat → List Char → List (String × String × String)
  | 0, _ => []
  | _, [] => []
  | fuel + 1, c :: rest =>
    match matchTestcaseHere (c :: rest) with
    | some (caps, after) => caps :: scanTestcases fuel after
    | none => scanTestcases fuel rest

/-- Match of the iteration-name regex `^(.+?)\s*\[([^\]]+),\s*#(\d+)\]$` on a
testcase name: lazy base capture (shortest first, its characters drawn from
the CR/LF-excluding `.` class), then the bracketed parameter segment ending
exactly at the end of the name. -/
def matchIterationName (fullName : String) : Option (String × String × Nat) :=
  let cs := fullName.data
  match cs.length with
  | 0 => none
  | n + 1 =>
    ascTry n fun p0 =>
      let p := p0 + 1
      let base := cs.take p
      if dotFree base = false then none else
      let r1 := cs.drop p
      descTry (wsRun r1) fun w1 =>
        match r1.drop w1 with
        | '[' :: r2 =>
          let m := (r2.takeWhile (fun c => c ≠ ']')).length
          if m = 0 then none
          else
            descTry (m - 1) fun d =>
              let len := d + 1
              let grp2 : String := ⟨r2.take len⟩
              match r2.drop len with
              | ',' :: r3 =>
                descTry (wsRun r3) fun w2 =>
                  match r3.drop w2 with
                  | '#' :: r4 =>
                    let ds := r4.takeWhile jsIsDigit
                    if ds.isEmpty then none
                    else
                      match r4.drop ds.length with
                      | [']'] => some (⟨base⟩, grp2, digitsToNat ds)
                      | _ => none
                  | _ => none
              | _ => none
        | _ => none

/-- Match, at a fixed position, of the per-testcase failure/error regex
`<testcase[^>]*name="FULL"[^>]*>\s*<TAG[^>]*>([^<]*)</TAG>` built by the
source with the regex-escaped testcase name (hence literal here). -/
def matchTcTagHere (fullName tag : String) (cs : List Char) : Option String :=
  if listPre "<testcase".data cs then
    let r1 := cs.drop 9
    descTry (runOf (fun c => c ≠ '>') r1) fun g1 =>
      if listPre ("name=\"" ++ fullName ++ "\"").data (r1.drop g1) then
        let r2 := (r1.drop g1).drop (6 + fullName.data.length + 1)
        let g2 := runOf (fun c => c ≠ '>') r2
        match r2.drop g2 with
        | '>' :: r3 =>
          let r4 := r3.drop (wsRun r3)
          if listPre ("<" ++ tag).data r4 then
            let r5 := r4.drop (1 + tag.data.length)
            let g3 := runOf (fun c => c ≠ '>') r5
            match r5.drop g3 with
            | '>' :: r6 =>
              let cap := r6.takeWhile (fun c => c ≠ '<')
              if listPre ("</" ++ tag ++ ">").data (r6.drop cap.length) then some ⟨cap⟩
              else none
            | _ => none
          else none
        | _ => none
      else none
  else none

/-- Leftmost match of the failure/error regex over the whole XML content
(`xmlContent.match(...)`). -/
def findTagBlock (fullName tag xmlContent : String) : Option String :=
  scanFirst (matchTcTagHere fullName tag) (xmlContent.data.length + 1) xmlContent.data

/-- Body of the testcase loop of `parseXmlReport`: names matching the
iteration pattern produce one result; other testcases are skipped. -/
def xmlCaseResult (xmlContent : String) (caps : String × String × String) :
    Option TestIterationResult :=
  let fullName := caps.1
  let time := caps.2.2
  match matchIterationName fullName with
  | some m =>
    let parametersString := m.2.1
    let index := m.2.2
    let failure := findTagBlock fullName "failure" xmlContent
    let err := findTagBlock fullName "error" xmlContent
    some { index := index,
           displayName := fullName,
           parameters := parseParameters parametersString,
           success := failure.isNone && err.isNone,
           duration := jsParseFloat (if time = "" then "0" else time),
           output := fullName,
           errorInfo :=
             match failure with
             | some f => some f
             | none => err }
  | none => none

/-- Pure core of `parseXmlReport` on the file content. -/
def parseXmlContent (xmlContent : String) : List TestIterationResult :=
  (scanTestcases xmlContent.data.length xmlContent.data).foldl
    (appendIfMatched (xmlCaseResult xmlContent)) []

/-- Report path composed by the source:
`path.join(workspacePath, 'build', 'test-results', 'test', 'TEST-<className>.xml')`
(separator normalization of `path.join` is abstracted to `/` joining). -/
def reportPath (workspacePath className : String) : String :=
  workspacePath ++ "/build/test-results/test/TEST-" ++ className ++ ".xml"

/-- `TestResultParser.parseXmlReport`.  The file system is modelled as a map
from paths to `none` (file absent, `existsSync` false), a thrown read error
(`readFileSync` raising, caught by the source and converted to the empty
result), or the file content. -/
def parseXmlReport (fs : String → Option (Except String String))
    (workspacePath className : String) : List TestIterationResult :=
  match fs (reportPath workspacePath className) with
  | none => []
  | some (.error _) => []
  | some (.ok xmlContent) => parseXmlContent xmlContent

/-- `TestResultParser.parseTestResults`: XML first, console fallback only
when the XML path yields no iterations. -/
def parseTestResults (fs : String → Option (Except String String))
    (consoleOutput testName className workspacePath : String) : List TestIterationResult :=
  let xmlResults := parseXmlReport fs workspacePath className
  if 0 < xmlResults.length then xmlResults
  else parseConsoleOutput consoleOutput testName

/-- Sample XML report used by the reconciliation witness: one iteration
testcase for class `Foo` with no failure or error element. -/
def xmlSample : String :=
  "<testsuite><testcase name=\"bar [x: 1, #0]\" classname=\"Foo\" time=\"0.1\"></testcase></testsuite>"

/-- Sample file system holding only the report of class `Foo` under the
workspace `ws`. -/
def fsSample : String → Option (Except String String) := fun p =>
  if p = "ws/build/test-results/test/TEST-Foo.xml" then some (.ok xmlSample) else none

/-- Reserved lifecycle hook names (`LIFECYCLE_METHODS`). -/
def lifecycleNames : List String :=
  ["setup", "setupSpec", "cleanup", "cleanupSpec"]

/-- Word-boundary test after a literal: the following character, if any, must
not be a word character. -/
def wordBoundaryAt (r : List Char) : Bool :=
  match r with
  | [] => true
  | c :: _ => !jsIsWord c

/-- Greedy search for the optional qualifier `(?:[\w.]*\.)?` before
`Specification\b`: consumed lengths `g+1` (a `[\w.]*` run of `g` characters
followed by a literal `.`) are tried longest first. -/
def specTailDotted (r : List Char) : Nat → Bool
  | 0 => false
  | g + 1 =>
    (r.getD g 'x' = '.' && listPre "Specification".data (r.drop (g + 1)) &&
      wordBoundaryAt ((r.drop (g + 1)).drop 13)) ||
    specTailDotted r g

/-- Match of `(?:[\w.]*\.)?Specification\b` (qualifier branch first, as the
greedy optional group is). -/
def specTail (r : List Char) : Bool :=
  specTailDotted r (r.takeWhile (fun c => jsIsWord c || c = '.')).length ||
    (listPre "Specification".data r && wordBoundaryAt (r.drop 13))

/-- Match of `class\s+(\w+)\s+extends\s+(?:[\w.]*\.)?Specification\b` starting
at the current position, returning the class-name capture. -/
def classAfterKw (cs : List Char) : Option String :=
  if listPre "class".data cs then
    let r1 := cs.drop 5
    let w1 := wsRun r1
    if w1 = 0 then none
    else
      let r2 := r1.drop w1
      let nm := r2.takeWhile jsIsWord
      if nm.isEmpty then none
      else
        let r3 := r2.drop nm.length
        let w2 := wsRun r3
        if w2 = 0 then none
        else
          let r4 := r3.drop w2
          if listPre "extends".data r4 then
            let r5 := r4.drop 7
            let w3 := wsRun r5
            if w3 = 0 then none
            else if specTail (r5.drop w3) then some ⟨nm⟩ else none
          else none
  else none

/-- Match of `CLASS_REGEX` =
`/^(?:abstract\s+)?class\s+(\w+)\s+extends\s+(?:[\w.]*\.)?Specification\b/` on
a trimmed line (greedy optional `abstract` prefix tried first). -/
def classRegexMatch (t : String) : Option String :=
  match
    (if listPre "abstract".data t.data then
      let r := t.data.drop 8
      let w := wsRun r
      if w = 0 then none else classAfterKw (r.drop w)
    else none) with
  | some nm => some nm
  | none => classAfterKw t.data

/-- Quote characters accepted by the method-header regex class. -/
def isQuoteChar (c : Char) : Bool :=
  c = '"' || c = '\x27'

/-- Tail of the method-header regex,
`\s*(?:\([^)]*\))?\s*(\{)?\s*$`, returning whether the optional brace capture
(group 4) matched; the optional parenthesis group is tried first and given up
on failure of the rest. -/
def mhTailNoParen (r : List Char) : Option Bool :=
  match r.drop (wsRun r) with
  | '\x7b' :: r4 =>
    if (r4.dropWhile jsIsWs).isEmpty then some true
    else none
  | r3 => if r3.isEmpty then some false else none

/-- Tail of the method-header regex including the optional parameter list. -/
def mhTail (r : List Char) : Option Bool :=
  let r1 := r.drop (wsRun r)
  let afterParen : Option (List Char) :=
    match r1 with
    | '(' :: t =>
      let body := t.takeWhile (fun c => c ≠ ')')
      match t.drop body.length with
      | ')' :: u => some u
      | _ => none
    | _ => none
  match afterParen with
  | some u =>
    match mhTailNoParen u with
    | some b => some b
    | none => mhTailNoParen r1
  | none => mhTailNoParen r1

/-- Name-group alternation of the method-header regex,
`(['"]([^'"]+)['"]|([a-zA-Z_][a-zA-Z0-9_]*))`, followed by the tail; returns
the captured content (group 2 or 3), whether it was quoted, and the brace
flag. -/
def mhAfterKw (cs : List Char) : Option (String × Bool × Bool) :=
  let quoted : Option (String × Bool × Bool) :=
    match cs with
    | q :: r1 =>
      if isQuoteChar q then
        let body := r1.takeWhile (fun c => !isQuoteChar c)
        if body.isEmpty then none
        else
          match r1.drop body.length with
          | q2 :: r2 =>
            if isQuoteChar q2 then (mhTail r2).map (fun b => (⟨body⟩, true, b))
            else none
          | [] => none
      else none
    | [] => none
  match quoted with
  | some res => some res
  | none =>
    match cs with
    | c :: _ =>
      if jsIsAlphaU c then
        let id := c :: (cs.drop 1).takeWhile jsIsWord
        (mhTail (cs.drop id.length)).map (fun b => (⟨id⟩, false, b))
      else none
    | [] => none

/-- Match of `METHOD_HEADER_REGEX` =
`/^(?:def|void)\s+(['"]([^'"]+)['"]|([a-zA-Z_][a-zA-Z0-9_]*))\s*(?:\([^)]*\))?\s*(\{)?\s*$/`
on a trimmed line. -/
def methodHeaderMatch (t : String) : Option (String × Bool × Bool) :=
  let tryKw (k : String) : Option (String × Bool × Bool) :=
    if listPre k.data t.data then
      let r := t.data.drop k.data.length
      let w := wsRun r
      if w = 0 then none else mhAfterKw (r.drop w)
    else none
  match tryKw "def" with
  | some res => some res
  | none => tryKw "void"

/-- `lineHasSpockBlockLabelNearby` (identical in both service variants): scan
up to 49 following lines, skipping blank lines, accepting at a block label and
rejecting at a lone `}` line or when the window is exhausted. -/
def blockLabelNearbyLoop (lines : List String) (stop : Nat) : Nat → Nat → Bool
  | 0, _ => false
  | fuel + 1, j =>
    if j < stop then
      let t := jsTrim (lineAt lines j)
      if t = "" then blockLabelNearbyLoop lines stop fuel (j + 1)
      else if blockLabelMatch t then true
      else if t = "\x7d" then false
      else blockLabelNearbyLoop lines stop fuel (j + 1)
    else false

/-- Block-label confirmation window for an unquoted method-name candidate. -/
def blockLabelNearby (lines : List String) (startIndex : Nat) : Bool :=
  blockLabelNearbyLoop lines (Nat.min lines.length (startIndex + 50)) 50 (startIndex + 1)

/-- Next-lines part of `hasOpeningBraceOnOrNextLine`: first non-blank,
non-comment following line (within 4 lines) decides by whether it starts with
`{`. -/
def openBraceNextLoop (lines : List String) (stop : Nat) : Nat → Nat → Bool
  | 0, _ => false
  | fuel + 1, j =>
    if j < stop then
      let t := jsTrim (lineAt lines j)
      if t = "" then openBraceNextLoop lines stop fuel (j + 1)
      else if strStarts t "//" then openBraceNextLoop lines stop fuel (j + 1)
      else strStarts t "\x7b"
    else false

/-- `hasOpeningBraceOnOrNextLine` of the short service variant (next lines
only; the same-line brace is handled by the regex capture at the call site). -/
def d1HasOpenBraceNext (lines : List String) (startIndex : Nat) : Bool :=
  openBraceNextLoop lines (Nat.min lines.length (startIndex + 5)) 5 (startIndex + 1)

/-- `hasOpeningBraceOnOrNextLine` of the long service variant: the current
line is checked for a `{` anywhere first, then the next lines. -/
def d2HasOpenBraceNext (lines : List String) (startIndex : Nat) : Bool :=
  if strContainsChar (jsTrim (lineAt lines startIndex)) '\x7b' then true
  else openBraceNextLoop lines (Nat.min lines.length (startIndex + 5)) 5 (startIndex + 1)

/-- `SpockTestMethod` of the short service variant. -/
structure D1Method where
  name : String
  line : Nat
  range : SrcRange
deriving DecidableEq, Repr, Inhabited

/-- `SpockTestClass` of the short service variant (the one carrying
`isAbstract`). -/
structure D1Class where
  name : String
  line : Nat
  range : SrcRange
  methods : List D1Method
  isAbstract : Bool
deriving DecidableEq, Repr, Inhabited

/-- Method-candidate handling of the short variant: trim the captured content,
reject empty and lifecycle names, require quoted-or-label-confirmed and a
brace on the line or soon after. -/
def d1PushMethod (lines : List String) (i : Nat) (c : D1Class) : D1Class :=
  match methodHeaderMatch (jsTrim (lineAt lines i)) with
  | some (content, isQ, brace) =>
    let rawName := jsTrim content
    if rawName ≠ "" ∧ rawName ∉ lifecycleNames then
      if (isQ || blockLabelNearby lines i) ∧ (brace || d1HasOpenBraceNext lines i) then
        { c with methods := c.methods ++ [⟨rawName, i, lineRange i (lineAt lines i)⟩] }
      else c
    else c
  | none => c

/-- Line loop of the short `parseTestsInFile`: every class-pattern line starts
a new class (and the old current one, mutated in place in the source, is
final from then on); inside a class, method headers are candidates; the brace
balance is updated once in the class branch and once in the trailing
`if (inClass)` block (hence twice on a class-declaration line), and reaching
balance ≤ 0 after the opening brace was seen closes the class. -/
def d1Loop (lines : List String) :
    Nat → Nat → Option D1Class → Bool → Int → Bool → List D1Class
  | 0, _, cur, _, _, _ => cur.toList
  | fuel + 1, i, cur, inClass, bal, seenOpen =>
    if i < lines.length then
      let line := lineAt lines i
      let trimmed := jsTrim line
      let delta := countBraceDelta line
      match classRegexMatch trimmed with
      | some nm =>
        let newCur : D1Class :=
          ⟨nm, i, lineRange i line, [], strStarts trimmed "abstract"⟩
        let bal2 := bal + delta + delta
        let seen2 := seenOpen || decide (0 < delta)
        if seen2 = true ∧ bal2 ≤ 0 then
          cur.toList ++ newCur :: d1Loop lines fuel (i + 1) none false 0 false
        else
          cur.toList ++ d1Loop lines fuel (i + 1) (some newCur) true bal2 seen2
      | none =>
        let cur2 :=
          if inClass then
            match cur with
            | some c => some (d1PushMethod lines i c)
            | none => none
          else cur
        if inClass then
          let bal2 := bal + delta
          let seen2 := seenOpen || decide (0 < delta)
          if seen2 = true ∧ bal2 ≤ 0 then
            cur2.toList ++ d1Loop lines fuel (i + 1) none false 0 false
          else d1Loop lines fuel (i + 1) cur2 inClass bal2 seen2
        else d1Loop lines fuel (i + 1) cur inClass bal seenOpen
    else cur.toList

/-- Short-variant `TestDiscoveryService.parseTestsInFile` (the one recording
`isAbstract`). -/
def d1ParseTestsInFile (content : String) : List D1Class :=
  let lines := jsSplit content "\n"
  d1Loop lines lines.length 0 none false 0 false

/-- `SpockTestMethod` of the long service variant, carrying the data-driven
information. -/
structure D2Method where
  name : String
  line : Nat
  range : SrcRange
  isDataDriven : Bool
  dataIterations : List SpockDataIteration
  whereBlockRange : Option SrcRange
deriving DecidableEq, Repr, Inhabited

/-- `SpockTestClass` of the long service variant (no `isAbstract` field). -/
structure D2Class where
  name : String
  line : Nat
  range : SrcRange
  methods : List D2Method
deriving DecidableEq, Repr, Inhabited

/-- `TestDiscoveryService.parseTestMethod` of the long variant: locate a where
block and attach its parsed iterations. -/
def d2ParseTestMethod (lines : List String) (startLine : Nat) (methodName : String) :
    D2Method :=
  match findWhereBlock lines startLine with
  | some (ws, we) =>
    { name := methodName,
      line := startLine,
      range := lineRange startLine (lineAt lines startLine),
      isDataDriven := true,
      dataIterations := parseDataTable lines ws we methodName,
      whereBlockRange := some ⟨ws, 0, we, (lineAt lines we).data.length⟩ }
  | none =>
    { name := methodName,
      line := startLine,
      range := lineRange startLine (lineAt lines startLine),
      isDataDriven := false,
      dataIterations := [],
      whereBlockRange := none }

/-- Method-candidate handling of the long variant (same acceptance policy as
the short one, building the method through `d2ParseTestMethod`). -/
def d2PushMethod (lines : List String) (i : Nat) (c : D2Class) : D2Class :=
  match methodHeaderMatch (jsTrim (lineAt lines i)) with
  | some (content, isQ, brace) =>
    let rawName := jsTrim content
    if rawName ≠ "" ∧ rawName ∉ lifecycleNames then
      if (isQ || blockLabelNearby lines i) ∧ (brace || d2HasOpenBraceNext lines i) then
        { c with methods := c.methods ++ [d2ParseTestMethod lines i rawName] }
      else c
    else c
  | none => c

/-- Method-candidate handling per scanned line of the long variant: only
while inside a class at nesting level zero is the current class updated. -/
def d2CurStep (lines : List String) (i : Nat) (inClass : Bool) (nesting : Nat)
    (cur : Option D2Class) : Option D2Class :=
  if inClass = true ∧ nesting = 0 then
    match cur with
    | some c => some (d2PushMethod lines i c)
    | none => none
  else cur

/-- Line loop of the long `parseTestsInFile`: only top-level classes are
recorded (a class line while inside a class increments the nesting level and
its body is skipped for method discovery); the brace balance is again updated
twice on a class-creation line; a negative delta inside a nested class
decrements the nesting level once. -/
def d2Loop (lines : List String) :
    Nat → Nat → Option D2Class → Bool → Int → Bool → Nat → List D2Class
  | 0, _, cur, _, _, _, _ => cur.toList
  | fuel + 1, i, cur, inClass, bal, seenOpen, nesting =>
    if i < lines.length then
      let line := lineAt lines i
      let trimmed := jsTrim line
      let delta := countBraceDelta line
      match classRegexMatch trimmed with
      | some nm =>
        if nesting = 0 ∧ inClass = false then
          let newCur : D2Class := ⟨nm, i, lineRange i line, []⟩
          let bal2 := bal + delta + delta
          let seen2 := seenOpen || decide (0 < delta)
          if seen2 = true ∧ bal2 ≤ 0 then
            cur.toList ++ newCur :: d2Loop lines fuel (i + 1) none false 0 false 0
          else
            cur.toList ++ d2Loop lines fuel (i + 1) (some newCur) true bal2 seen2 0
        else if inClass then
          let nesting2 := nesting + 1
          let bal2 := bal + delta
          let seen2 := seenOpen || decide (0 < delta)
          if 0 < nesting2 then
            d2Loop lines fuel (i + 1) cur inClass bal2 seen2
              (if delta < 0 then nesting2 - 1 else nesting2)
          else if seen2 = true ∧ bal2 ≤ 0 then
            cur.toList ++ d2Loop lines fuel (i + 1) none false 0 false 0
          else d2Loop lines fuel (i + 1) cur inClass bal2 seen2 nesting2
        else d2Loop lines fuel (i + 1) cur inClass bal seenOpen nesting
      | none =>
        let cur2 := d2CurStep lines i inClass nesting cur
        if inClass then
          let bal2 := bal + delta
          let seen2 := seenOpen || decide (0 < delta)
          if 0 < nesting then
            d2Loop lines fuel (i + 1) cur2 inClass bal2 seen2
              (if delta < 0 then nesting - 1 else nesting)
          else if seen2 = true ∧ bal2 ≤ 0 then
            cur2.toList ++ d2Loop lines fuel (i + 1) none false 0 false 0
          else d2Loop lines fuel (i + 1) cur2 inClass bal2 seen2 nesting
        else d2Loop lines fuel (i + 1) cur inClass bal seenOpen nesting
    else cur.toList

/-- Long-variant `TestDiscoveryService.parseTestsInFile` (the one performing
where-block discovery). -/
def d2ParseTestsInFile (content : String) : List D2Class :=
  let lines := jsSplit content "\n"
  d2Loop lines lines.length 0 none false 0 false 0

/-- Well-formedness of a recovered method: its name is not a lifecycle name,
not empty, and is exactly the trimmed captured content (quoted string content
or bare identifier) of the accepted method heading standing on the method's
own declaration line, a heading that is quoted or confirmed by a nearby Spock
block label and has an opening brace on the line or soon after. -/
def methodNameOK (lines : List String) (m : D2Method) : Prop :=
  m.name ∉ lifecycleNames ∧ m.name ≠ "" ∧ m.line < lines.length ∧
  ∃ cont isQ br,
    methodHeaderMatch (jsTrim (lineAt lines m.line)) = some (cont, isQ, br) ∧
    m.name = jsTrim cont ∧
    (isQ || blockLabelNearby lines m.line) = true ∧
    (br || d2HasOpenBraceNext lines m.line) = true

/-- Sample source whose single method heading is quoted with surrounding
spaces inside the quotes. -/
def c4TrimSample : String :=
  "class A extends Specification \x7b\n  def \" trimmed \"() \x7b\n    expect: true\n  \x7d\n\x7d\n"

/-- Sample source with one ordinary quoted feature method. -/
def c4Sample : String :=
  "class A extends Specification \x7b\n  def \"my test\"() \x7b\n    expect: true\n  \x7d\n\x7d\n"

/-- C3: in the console-output coercion path (`parseParameters`, used by
`parseConsoleOutput`), the literal token `null` is coerced to the string
`"null"`, whereas the shared data-table coercion `parseValue` maps the token
`null` to the null value. -/
theorem C3_null_token_coercion :
    coerceParamValue "null" = PValue.str "null" ∧
    parseValue "null" = PValue.nullV ∧
    parseParameters "x: null" = [("x", PValue.str "null")] := by
  refine ⟨by decide, by decide, by decide⟩

/-- Case analysis of the separator-selection fold: either no candidate occurs
and the selection is empty, or the selection is the priority-first candidate
among those with the maximal occurrence count. -/
theorem bestSeparator_cases (line : String) :
    (bestSeparator line = "" ∧ ∀ s ∈ tableSeparators, countOccs line s = 0) ∨
    (bestSeparator line ∈ tableSeparators ∧
      0 < countOccs line (bestSeparator line) ∧
      (∀ s ∈ tableSeparators, countOccs line s ≤ countOccs line (bestSeparator line)) ∧
      (∀ s ∈ tableSeparators, countOccs line s = countOccs line (bestSeparator line) →
        sepPriorityIdx (bestSeparator line) ≤ sepPriorityIdx s)) := by
  simp only [bestSeparator, tableSeparators, List.foldl_cons, List.foldl_nil]
  split_ifs <;>
    simp_all [sepPriorityIdx, List.mem_cons] <;>
    omega

/-- C6: for every data-table row line in which at least one candidate
separator occurs, `parseDataTableRow` splits the line on the candidate among
`||`, `;;`, `|`, `;` that occurs most frequently in the line (ties broken by
that listed priority order), then trims the cells and drops the empty ones; in
particular a row dominated by `;` is not mis-split by a rarer `|`. -/
theorem C6_parseDataTableRow_best_separator (line : String)
    (h : ∃ s ∈ tableSeparators, 0 < countOccs line s) :
    bestSeparator line ∈ tableSeparators ∧
    (∀ s ∈ tableSeparators, countOccs line s ≤ countOccs line (bestSeparator line)) ∧
    (∀ s ∈ tableSeparators, countOccs line s = countOccs line (bestSeparator line) →
      sepPriorityIdx (bestSeparator line) ≤ sepPriorityIdx s) ∧
    parseDataTableRow line =
      ((jsSplit line (bestSeparator line)).map jsTrim).filter (fun cell => 0 < cell.length) := by
  rcases bestSeparator_cases line with ⟨_, hall⟩ | ⟨hmem, _, hmax, htie⟩
  · obtain ⟨s, hs, hpos⟩ := h
    exact absurd (hall s hs) (by omega)
  · refine ⟨hmem, hmax, htie, ?_⟩
    have hne : bestSeparator line ≠ "" := by
      intro he
      rw [he] at hmem
      exact (by decide : ("" : String) ∉ tableSeparators) hmem
    unfold parseDataTableRow
    rw [if_pos hne]

/-- Witness for C6 at the line `1 ; 2 | 3 ; 4`, where `;` dominates and a
lone `|` appears: the selected separator is `;` and the split is not broken
at the `|`. -/
theorem C6_parseDataTableRow_best_separator_witness :
    (bestSeparator "1 ; 2 | 3 ; 4" ∈ tableSeparators ∧
      (∀ s ∈ tableSeparators,
        countOccs "1 ; 2 | 3 ; 4" s ≤ countOccs "1 ; 2 | 3 ; 4" (bestSeparator "1 ; 2 | 3 ; 4")) ∧
      (∀ s ∈ tableSeparators,
        countOccs "1 ; 2 | 3 ; 4" s = countOccs "1 ; 2 | 3 ; 4" (bestSeparator "1 ; 2 | 3 ; 4") →
        sepPriorityIdx (bestSeparator "1 ; 2 | 3 ; 4") ≤ sepPriorityIdx s) ∧
      parseDataTableRow "1 ; 2 | 3 ; 4" =
        ((jsSplit "1 ; 2 | 3 ; 4" (bestSeparator "1 ; 2 | 3 ; 4")).map jsTrim).filter
          (fun cell => 0 < cell.length)) ∧
    bestSeparator "1 ; 2 | 3 ; 4" = ";" ∧
    parseDataTableRow "1 ; 2 | 3 ; 4" = ["1", "2 | 3", "4"] :=
  ⟨C6_parseDataTableRow_best_separator "1 ; 2 | 3 ; 4" ⟨";", by decide, by decide⟩,
    by decide, by decide⟩

/-- C5: a where block whose header row declares the variables `a` and `b` and
whose single data row holds the tokens `1` and `2` yields exactly one
`SpockDataIteration`, with `dataValues` mapping `a` to the integer 1 and `b`
to the integer 2, and with index 0 (for any method name). -/
theorem C5_parseDataTable_roundtrip (methodName : String) :
    ∃ dn rng,
      parseDataTable ["where:", "a | b", "1 | 2"] 0 2 methodName =
        [{ index := 0,
           dataValues := [("a", PValue.num 1), ("b", PValue.num 2)],
           displayName := dn, range := rng, originalMethodName := methodName }] :=
  ⟨_, _, rfl⟩

/-- C10: a pipe-form line `var << expr` whose expression does not begin with
`[` makes `parseDataPipeSource` return the source text as a single element,
and `parseDataTable` therefore produces exactly one iteration for such a line,
mapping the variable to the raw expression text as a string. -/
theorem C10_pipe_nonarray_fallback :
    (∀ s : String, strStarts s "[" = false → parseDataPipeSource s = [PValue.str s]) ∧
    (∀ methodName : String, ∃ dn rng,
      parseDataTable ["where:", "x << 1..3"] 0 1 methodName =
        [{ index := 0, dataValues := [("x", PValue.str "1..3")],
           displayName := dn, range := rng, originalMethodName := methodName }]) := by
  constructor
  · intro s h
    simp [parseDataPipeSource, h]
  · intro methodName
    exact ⟨_, _, rfl⟩

/-- Witness for C10: the non-array pipe source `1..3` comes back as the single
string element, by the theorem applied at that input. -/
theorem C10_pipe_nonarray_fallback_witness :
    parseDataPipeSource "1..3" = [PValue.str "1..3"] :=
  C10_pipe_nonarray_fallback.1 "1..3" (by decide)

/-- Success of the inner where-block scan yields the first terminating line at
or after the scan start, with the block end just before it. -/
theorem fwbInner_some (lines : List String) (w : Nat) :
    ∀ fuel j w' e, fwbInner lines w fuel j = some (w', e) →
      w' = w ∧ ∃ t, e = t - 1 ∧ j ≤ t ∧ t < lines.length ∧ fwbTerm lines t ∧
        ∀ k, j ≤ k → k < t → ¬ fwbTerm lines k := by
  intro fuel
  induction fuel with
  | zero =>
    intro j w' e h
    simp [fwbInner] at h
  | succ n ih =>
    intro j w' e h
    unfold fwbInner at h
    split at h
    case isTrue hj =>
      split at h
      case isTrue hterm =>
        obtain ⟨rfl, rfl⟩ : w = w' ∧ j - 1 = e := by
          constructor <;> injection h with h1 <;> injection h1
        refine ⟨rfl, j, rfl, Nat.le_refl j, hj, hterm, ?_⟩
        intro k hk1 hk2
        omega
      case isFalse hterm =>
        obtain ⟨rfl, t, rfl, hjt, htl, hT, hfirst⟩ := ih (j + 1) w' e h
        refine ⟨rfl, t, rfl, by omega, htl, hT, ?_⟩
        intro k hk1 hk2
        rcases Nat.eq_or_lt_of_le hk1 with rfl | hk
        · exact hterm
        · exact hfirst k (by omega) hk2
    case isFalse => exact absurd h (by simp)

/-- Peeling one line off a scan slice. -/
theorem scanSlice_shift (lines : List String) (st : Int × Bool) (i k : Nat)
    (hik : i ≤ k) (hi : i < lines.length) :
    scanSlice st ((lines.drop i).take (k + 1 - i)) =
      scanSlice (fwbStep st (lineAt lines i)) ((lines.drop (i + 1)).take (k - i)) := by
  have hdrop : lines.drop i = lineAt lines i :: lines.drop (i + 1) := by
    rw [List.drop_eq_getElem_cons hi]
    congr 1
    simp [lineAt, List.getD_eq_getElem?_getD, List.getElem?_eq_getElem hi]
  rw [hdrop, show k + 1 - i = (k - i) + 1 by omega, List.take_succ_cons]
  rfl

/-- The relative scan state over a single line is one step. -/
theorem fwbStateFrom_self (lines : List String) (st : Int × Bool) (i : Nat)
    (hi : i < lines.length) :
    fwbStateFrom lines st i i = fwbStep st (lineAt lines i) := by
  unfold fwbStateFrom
  rw [scanSlice_shift lines st i i (Nat.le_refl i) hi, Nat.sub_self, List.take_zero]
  rfl

/-- Re-anchoring the relative scan state one line later. -/
theorem fwbStateFrom_shift (lines : List String) (st : Int × Bool) (i k : Nat)
    (hik : i ≤ k) (hi : i < lines.length) :
    fwbStateFrom lines st i k
      = fwbStateFrom lines (fwbStep st (lineAt lines i)) (i + 1) k := by
  unfold fwbStateFrom
  rw [show k + 1 - (i + 1) = k - i from by omega]
  exact scanSlice_shift lines st i k hik hi

/-- Re-anchoring the break condition one line later. -/
theorem fwbBreakAt_shift (lines : List String) (st : Int × Bool) (i k : Nat)
    (hik : i ≤ k) (hi : i < lines.length) :
    fwbBreakAt lines (fwbStep st (lineAt lines i)) (i + 1) k ↔ fwbBreakAt lines st i k := by
  unfold fwbBreakAt
  rw [fwbStateFrom_shift lines st i k hik hi]

/-- Re-anchoring the fire condition one line later. -/
theorem fwbFireAt_shift (lines : List String) (st : Int × Bool) (i k : Nat)
    (hik : i ≤ k) (hi : i < lines.length) :
    fwbFireAt lines (fwbStep st (lineAt lines i)) (i + 1) k ↔ fwbFireAt lines st i k := by
  unfold fwbFireAt
  rw [fwbStateFrom_shift lines st i k hik hi]

/-- Completeness of the inner scan: the first terminating line at or after
the scan start determines the returned block end. -/
theorem fwbInner_first_term (lines : List String) (w : Nat) :
    ∀ fuel j t, j ≤ t → t < lines.length → fwbTerm lines t →
      (∀ k, j ≤ k → k < t → ¬ fwbTerm lines k) → t - j < fuel →
      fwbInner lines w fuel j = some (w, t - 1) := by
  intro fuel
  induction fuel with
  | zero =>
    intro j t h1 h2 h3 h4 h5
    omega
  | succ n ih =>
    intro j t h1 h2 h3 h4 h5
    unfold fwbInner
    rw [if_pos (show j < lines.length by omega)]
    rcases Nat.eq_or_lt_of_le h1 with rfl | hlt
    · rw [if_pos h3]
    · rw [if_neg (h4 j (Nat.le_refl j) hlt)]
      exact ih (j + 1) t (by omega) h2 h3 (fun k hk1 hk2 => h4 k (by omega) hk2) (by omega)

/-- Completeness of the inner scan, empty case: without any terminating line
at or after the scan start, no block is returned. -/
theorem fwbInner_no_term (lines : List String) (w : Nat) :
    ∀ fuel j, (∀ k, j ≤ k → k < lines.length → ¬ fwbTerm lines k) →
      fwbInner lines w fuel j = none := by
  intro fuel
  induction fuel with
  | zero =>
    intro j h
    rfl
  | succ n ih =>
    intro j h
    unfold fwbInner
    split
    case isTrue hj =>
      rw [if_neg (h j (Nat.le_refl j) hj)]
      exact ih (j + 1) (fun k hk1 hk2 => h k (by omega) hk2)
    case isFalse => rfl

/-- Completeness of the outer scan: when line `w` is the first event and it
is a where-fire (no break on it or before it, no earlier fire), the result is
exactly that of the inner scan started after `w`. -/
theorem fwbOuter_fire_eq (lines : List String) :
    ∀ fuel i st w, i ≤ w → w < lines.length →
      ¬ fwbBreakAt lines st i w → fwbFireAt lines st i w →
      (∀ k, i ≤ k → k < w → ¬ fwbBreakAt lines st i k ∧ ¬ fwbFireAt lines st i k) →
      w - i < fuel →
      fwbOuter lines fuel i st = fwbInner lines w lines.length (w + 1) := by
  intro fuel
  induction fuel with
  | zero =>
    intro i st w h1 h2 h3 h4 h5 h6
    omega
  | succ n ih =>
    intro i st w h1 hwlen hbrk hfire hprior hfuel
    have hilen : i < lines.length := by omega
    unfold fwbOuter
    rw [if_pos hilen]
    rcases Nat.eq_or_lt_of_le h1 with rfl | hlt
    · unfold fwbBreakAt at hbrk
      unfold fwbFireAt at hfire
      rw [fwbStateFrom_self lines st i hilen] at hbrk hfire
      rw [if_neg hbrk, if_pos hfire]
    · obtain ⟨hkb, hkf⟩ := hprior i (Nat.le_refl i) hlt
      unfold fwbBreakAt at hkb
      unfold fwbFireAt at hkf
      rw [fwbStateFrom_self lines st i hilen] at hkb hkf
      rw [if_neg hkb, if_neg hkf]
      apply ih (i + 1) (fwbStep st (lineAt lines i)) w (by omega) hwlen
      · rw [fwbBreakAt_shift lines st i w h1 hilen]
        exact hbrk
      · rw [fwbFireAt_shift lines st i w h1 hilen]
        exact hfire
      · intro k hk1 hk2
        rw [fwbBreakAt_shift lines st i k (by omega) hilen,
          fwbFireAt_shift lines st i k (by omega) hilen]
        exact hprior k (by omega) hk2
      · omega

/-- Completeness of the outer scan, break case: when line `b` is the first
event and it is a break, no block is returned. -/
theorem fwbOuter_break_none (lines : List String) :
    ∀ fuel i st b, i ≤ b → b < lines.length → fwbBreakAt lines st i b →
      (∀ k, i ≤ k → k < b → ¬ fwbBreakAt lines st i k ∧ ¬ fwbFireAt lines st i k) →
      fwbOuter lines fuel i st = none := by
  intro fuel
  induction fuel with
  | zero =>
    intro i st b h1 h2 h3 h4
    rfl
  | succ n ih =>
    intro i st b h1 hblen hbrk hprior
    have hilen : i < lines.length := by omega
    unfold fwbOuter
    rw [if_pos hilen]
    rcases Nat.eq_or_lt_of_le h1 with rfl | hlt
    · unfold fwbBreakAt at hbrk
      rw [fwbStateFrom_self lines st i hilen] at hbrk
      rw [if_pos hbrk]
    · obtain ⟨hkb, hkf⟩ := hprior i (Nat.le_refl i) hlt
      unfold fwbBreakAt at hkb
      unfold fwbFireAt at hkf
      rw [fwbStateFrom_self lines st i hilen] at hkb hkf
      rw [if_neg hkb, if_neg hkf]
      apply ih (i + 1) (fwbStep st (lineAt lines i)) b (by omega) hblen
      · rw [fwbBreakAt_shift lines st i b h1 hilen]
        exact hbrk
      · intro k hk1 hk2
        rw [fwbBreakAt_shift lines st i k (by omega) hilen,
          fwbFireAt_shift lines st i k (by omega) hilen]
        exact hprior k (by omega) hk2

/-- Completeness of the outer scan, quiet case: when neither the break nor
the fire condition ever holds on the scanned lines, no block is returned. -/
theorem fwbOuter_quiet_none (lines : List String) :
    ∀ fuel i st,
      (∀ k, i ≤ k → k < lines.length →
        ¬ fwbBreakAt lines st i k ∧ ¬ fwbFireAt lines st i k) →
      fwbOuter lines fuel i st = none := by
  intro fuel
  induction fuel with
  | zero =>
    intro i st h
    rfl
  | succ n ih =>
    intro i st h
    unfold fwbOuter
    split
    case isTrue hilen =>
      obtain ⟨hkb, hkf⟩ := h i (Nat.le_refl i) hilen
      unfold fwbBreakAt at hkb
      unfold fwbFireAt at hkf
      rw [fwbStateFrom_self lines st i hilen] at hkb hkf
      rw [if_neg hkb, if_neg hkf]
      apply ih (i + 1) (fwbStep st (lineAt lines i))
      intro k hk1 hk2
      rw [fwbBreakAt_shift lines st i k (by omega) hilen,
        fwbFireAt_shift lines st i k (by omega) hilen]
      exact h k (by omega) hk2
    case isFalse => rfl

/-- Success of the outer where-block scan: the returned block was produced by
the inner scan started at a line that matches the where label while the brace
scan is inside the method, and no earlier line in the scanned range does both. -/
theorem fwbOuter_some (lines : List String) :
    ∀ fuel i st r, fwbOuter lines fuel i st = some r →
      ∃ w, i ≤ w ∧ w < lines.length ∧
        whereLabelMatch (jsTrim (lineAt lines w)) = true ∧
        (scanSlice st ((lines.drop i).take (w + 1 - i))).2 = true ∧
        (∀ k, i ≤ k → k < w →
          ¬(whereLabelMatch (jsTrim (lineAt lines k)) = true ∧
            (scanSlice st ((lines.drop i).take (k + 1 - i))).2 = true)) ∧
        fwbInner lines w lines.length (w + 1) = some r := by
  intro fuel
  induction fuel with
  | zero =>
    intro i st r h
    simp [fwbOuter] at h
  | succ n ih =>
    intro i st r h
    unfold fwbOuter at h
    split at h
    case isTrue hi =>
      split at h
      case isTrue hbrk => exact absurd h (by simp)
      case isFalse hbrk =>
        split at h
        case isTrue hfire =>
          refine ⟨i, Nat.le_refl i, hi, hfire.2, ?_, ?_, h⟩
          · rw [scanSlice_shift lines st i i (Nat.le_refl i) hi]
            simpa using hfire.1
          · intro k hk1 hk2
            omega
        case isFalse hfire =>
          obtain ⟨w, hw1, hw2, hw3, hw4, hw5, hw6⟩ := ih (i + 1) _ r h
          refine ⟨w, by omega, hw2, hw3, ?_, ?_, hw6⟩
          · rw [scanSlice_shift lines st i w (by omega) hi]
            rwa [show w + 1 - (i + 1) = w - i from by omega] at hw4
          · intro k hk1 hk2
            rcases Nat.eq_or_lt_of_le hk1 with rfl | hk
            · intro hc
              apply hfire
              refine ⟨?_, hc.1⟩
              have h2 := hc.2
              rw [scanSlice_shift lines st i i (Nat.le_refl i) hi, Nat.sub_self,
                List.take_zero] at h2
              simpa [scanSlice] using h2
            · intro hc
              apply hw5 k (by omega) hk2
              refine ⟨hc.1, ?_⟩
              have h2 := hc.2
              rw [scanSlice_shift lines st i k (by omega) hi] at h2
              rwa [show k + 1 - (i + 1) = k - i from by omega]
    case isFalse => exact absurd h (by simp)

/-- When no line at or after the scan start matches the where label, the outer
scan returns nothing. -/
theorem fwbOuter_none (lines : List String) :
    ∀ fuel i st,
      (∀ j, i ≤ j → j < lines.length → whereLabelMatch (jsTrim (lineAt lines j)) = false) →
      fwbOuter lines fuel i st = none := by
  intro fuel
  induction fuel with
  | zero => intro i st _; rfl
  | succ n ih =>
    intro i st h
    unfold fwbOuter
    split
    case isTrue hi =>
      split
      case isTrue => rfl
      case isFalse =>
        split
        case isTrue hfire =>
          rw [h i (Nat.le_refl i) hi] at hfire
          exact absurd hfire.2 (by simp)
        case isFalse =>
          exact ih (i + 1) _ (fun j hj hjl => h j (by omega) hjl)
    case isFalse => rfl

/-- C8 counterexample: in this three-line input the method body (entered at
line 0) contains the line `where:` at line 1, so the claim requires a block
span ending at end of file; but the file ends with a non-blank line and no
`}` line, and `findWhereBlock` returns no span. -/
theorem C8_findWhereBlock_counterexample :
    findWhereBlock ["def f() \x7b", "where:", "a | b"] 0 = none ∧
    whereLabelMatch (jsTrim (lineAt ["def f() \x7b", "where:", "a | b"] 1)) = true ∧
    (fwbState ["def f() \x7b", "where:", "a | b"] 0 (1 + 1)).2 = true :=
  ⟨rfl, by decide, by decide⟩

/-- C8 (amended): full characterization of `findWhereBlock`.  None is
returned when no line at or after the method start matches the where label,
when the brace scan closes the method body (first break) before any where
line fires, when the scan runs off the lines with neither event, or when a
first where-fire is followed by no terminating line; and when the first event
is a where-fire at line `w` whose first subsequent terminating line (a line
trimming to `}`, or trimming empty as the very last line) is `t`, exactly the
span `(w, t-1)` is returned.  Conversely every returned span has that shape
(soundness). -/
theorem C8_findWhereBlock_amended (lines : List String) (s : Nat) :
    ((∀ j, s ≤ j → j < lines.length → whereLabelMatch (jsTrim (lineAt lines j)) = false) →
      findWhereBlock lines s = none) ∧
    (∀ b, s ≤ b → b < lines.length → fwbBreakAt lines (0, false) s b →
      (∀ k, s ≤ k → k < b →
        ¬ fwbBreakAt lines (0, false) s k ∧ ¬ fwbFireAt lines (0, false) s k) →
      findWhereBlock lines s = none) ∧
    ((∀ k, s ≤ k → k < lines.length →
        ¬ fwbBreakAt lines (0, false) s k ∧ ¬ fwbFireAt lines (0, false) s k) →
      findWhereBlock lines s = none) ∧
    (∀ w t, s ≤ w → w < lines.length →
      ¬ fwbBreakAt lines (0, false) s w → fwbFireAt lines (0, false) s w →
      (∀ k, s ≤ k → k < w →
        ¬ fwbBreakAt lines (0, false) s k ∧ ¬ fwbFireAt lines (0, false) s k) →
      w + 1 ≤ t → t < lines.length → fwbTerm lines t →
      (∀ k, w + 1 ≤ k → k < t → ¬ fwbTerm lines k) →
      findWhereBlock lines s = some (w, t - 1)) ∧
    (∀ w, s ≤ w → w < lines.length →
      ¬ fwbBreakAt lines (0, false) s w → fwbFireAt lines (0, false) s w →
      (∀ k, s ≤ k → k < w →
        ¬ fwbBreakAt lines (0, false) s k ∧ ¬ fwbFireAt lines (0, false) s k) →
      (∀ k, w + 1 ≤ k → k < lines.length → ¬ fwbTerm lines k) →
      findWhereBlock lines s = none) ∧
    (∀ w e, findWhereBlock lines s = some (w, e) →
      s ≤ w ∧ w < lines.length ∧
      whereLabelMatch (jsTrim (lineAt lines w)) = true ∧
      (fwbState lines s (w + 1)).2 = true ∧
      (∀ k, s ≤ k → k < w →
        ¬(whereLabelMatch (jsTrim (lineAt lines k)) = true ∧
          (fwbState lines s (k + 1)).2 = true)) ∧
      ∃ t, e = t - 1 ∧ w + 1 ≤ t ∧ t < lines.length ∧ fwbTerm lines t ∧
        ∀ k, w + 1 ≤ k → k < t → ¬ fwbTerm lines k) := by
  refine ⟨?_, ?_, ?_, ?_, ?_, ?_⟩
  · intro h
    exact fwbOuter_none lines lines.length s (0, false) h
  · intro b h1 h2 h3 h4
    exact fwbOuter_break_none lines lines.length s (0, false) b h1 h2 h3 h4
  · intro h
    exact fwbOuter_quiet_none lines lines.length s (0, false) h
  · intro w t h1 h2 h3 h4 h5 h6 h7 h8 h9
    unfold findWhereBlock
    rw [fwbOuter_fire_eq lines lines.length s (0, false) w h1 h2 h3 h4 h5 (by omega)]
    exact fwbInner_first_term lines w lines.length (w + 1) t h6 h7 h8 h9 (by omega)
  · intro w h1 h2 h3 h4 h5 h6
    unfold findWhereBlock
    rw [fwbOuter_fire_eq lines lines.length s (0, false) w h1 h2 h3 h4 h5 (by omega)]
    exact fwbInner_no_term lines w lines.length (w + 1) h6
  · intro w e h
    obtain ⟨w0, hw1, hw2, hw3, hw4, hw5, hw6⟩ :=
      fwbOuter_some lines lines.length s (0, false) (w, e) h
    obtain ⟨rfl, t, rfl, ht1, ht2, ht3, ht4⟩ :=
      fwbInner_some lines w0 lines.length (w0 + 1) w e hw6
    simp only [fwbState]
    exact ⟨hw1, hw2, hw3, hw4, hw5, t, rfl, ht1, ht2, ht3, ht4⟩

/-- Witness for C8 (amended), by the theorem at three concrete inputs: the
first fire with a first terminator yields exactly that span; a body that
closes before the later method's where line yields none; a file without a
where label yields none. -/
theorem C8_findWhereBlock_amended_witness :
    findWhereBlock ["def f() \x7b", "where:", "a | b", ""] 0 = some (1, 2) ∧
    findWhereBlock
      ["def a() \x7b", "expect: true", "\x7d", "def b() \x7b", "where:", "x | y",
        "1 | 2", "\x7d", "\x7d"] 0 = none ∧
    findWhereBlock ["def g() \x7b", "expect: true", "\x7d"] 0 = none :=
  ⟨(C8_findWhereBlock_amended ["def f() \x7b", "where:", "a | b", ""] 0).2.2.2.1 1 3
      (by decide) (by decide) (by decide) (by decide)
      (by
        intro k h1 h2
        interval_cases k; decide)
      (by decide) (by decide) (by decide)
      (by
        intro k h1 h2
        interval_cases k; decide),
    (C8_findWhereBlock_amended
      ["def a() \x7b", "expect: true", "\x7d", "def b() \x7b", "where:", "x | y",
        "1 | 2", "\x7d", "\x7d"] 0).2.1 2
      (by decide) (by decide) (by decide)
      (by
        intro k h1 h2
        interval_cases k <;> decide),
    (C8_findWhereBlock_amended ["def g() \x7b", "expect: true", "\x7d"] 0).1
      (by
        intro j h0 hj
        have hj3 : j < 3 := by simpa using hj
        interval_cases j <;> decide)⟩

/-- Conditional-append folds are filterMaps. -/
theorem foldl_opt_append_eq_filterMap {α β : Type} (f : α → Option β) :
    ∀ (ls : List α) (acc : List β),
      ls.foldl (appendIfMatched f) acc = acc ++ ls.filterMap f := by
  intro ls
  induction ls with
  | nil => intro acc; simp
  | cons a ls ih =>
    intro acc
    simp only [List.foldl_cons, List.filterMap_cons]
    cases h : f a with
    | none => rw [show appendIfMatched f acc a = acc from by simp [appendIfMatched, h], ih]
    | some b =>
      rw [show appendIfMatched f acc a = acc ++ [b] from by simp [appendIfMatched, h], ih]
      simp

/-- Unfolding of the longest-first backtracking search. -/
theorem descTry_eq_some {α : Type} (a : α) :
    ∀ (n : Nat) (f : Nat → Option α), descTry n f = some a → ∃ k, k ≤ n ∧ f k = some a := by
  intro n
  induction n with
  | zero => exact fun f h => ⟨0, Nat.le_refl 0, h⟩
  | succ n ih =>
    intro f h
    unfold descTry at h
    cases hf : f (n + 1) with
    | some b =>
      rw [hf] at h
      simp only [Option.orElse] at h
      exact ⟨n + 1, Nat.le_refl _, by rw [hf]; exact h⟩
    | none =>
      rw [hf] at h
      simp only [Option.orElse] at h
      obtain ⟨k, hk, hfk⟩ := ih f h
      exact ⟨k, by omega, hfk⟩

/-- C2: `parseConsoleOutput` produces exactly one result per line matching the
console iteration pattern; each result carries duration 0, the index parsed
from the `#index` segment, the parameters coerced from the captured parameter
text, success exactly for the status `PASSED`, and the status is one of
`PASSED`, `FAILED`, `SKIPPED`; in particular the line
`com.example.Foo > bar [x: 1, y: 2, #0] PASSED` yields one result with
index 0, success, and parameters `x = 1`, `y = 2`. -/
theorem C2_parseConsoleOutput_spec (output testName : String) :
    parseConsoleOutput output testName
      = (jsSplit output "\n").filterMap (consoleLineResult testName) ∧
    (∀ r ∈ parseConsoleOutput output testName,
      ∃ line ∈ jsSplit output "\n", ∃ ps idx st,
        matchIterationLine testName line = some (ps, idx, st) ∧
        (statusText st = "PASSED" ∨ statusText st = "FAILED" ∨ statusText st = "SKIPPED") ∧
        r.index = idx ∧ r.duration = some 0 ∧ r.parameters = parseParameters ps ∧
        (r.success = true ↔ statusText st = "PASSED")) ∧
    parseConsoleOutput "com.example.Foo > bar [x: 1, y: 2, #0] PASSED" "bar"
      = [{ index := 0,
           displayName := "bar [x: 1, y: 2, #0]",
           parameters := [("x", PValue.num 1), ("y", PValue.num 2)],
           success := true,
           duration := some 0,
           output := "com.example.Foo > bar [x: 1, y: 2, #0] PASSED",
           errorInfo := none }] := by
  have hfm : parseConsoleOutput output testName
      = (jsSplit output "\n").filterMap (consoleLineResult testName) := by
    unfold parseConsoleOutput
    simpa using foldl_opt_append_eq_filterMap (consoleLineResult testName) (jsSplit output "\n") []
  refine ⟨hfm, ?_, by decide⟩
  intro r hr
  rw [hfm] at hr
  obtain ⟨line, hline, hsome⟩ := List.mem_filterMap.mp hr
  obtain ⟨⟨ps, idx, st⟩, hmatch, hbuild⟩ := Option.map_eq_some'.mp hsome
  refine ⟨line, hline, ps, idx, st, hmatch, by cases st <;> simp [statusText], ?_, ?_, ?_, ?_⟩
  · rw [← hbuild]
  · rw [← hbuild]
  · rw [← hbuild]
  · rw [← hbuild]
    cases st <;> simp [statusText]

/-- Witness for C2: the membership clause of the theorem instantiated at the
single result of the example line. -/
theorem C2_parseConsoleOutput_spec_witness :
    ∃ line ∈ jsSplit "com.example.Foo > bar [x: 1, y: 2, #0] PASSED" "\n",
      ∃ ps idx st,
        matchIterationLine "bar" line = some (ps, idx, st) ∧
        (statusText st = "PASSED" ∨ statusText st = "FAILED" ∨ statusText st = "SKIPPED") ∧
        ({ index := 0,
           displayName := "bar [x: 1, y: 2, #0]",
           parameters := [("x", PValue.num 1), ("y", PValue.num 2)],
           success := true,
           duration := some 0,
           output := "com.example.Foo > bar [x: 1, y: 2, #0] PASSED",
           errorInfo := none } : TestIterationResult).index = idx ∧
        ({ index := 0,
           displayName := "bar [x: 1, y: 2, #0]",
           parameters := [("x", PValue.num 1), ("y", PValue.num 2)],
           success := true,
           duration := some 0,
           output := "com.example.Foo > bar [x: 1, y: 2, #0] PASSED",
           errorInfo := none } : TestIterationResult).duration = some 0 ∧
        ({ index := 0,
           displayName := "bar [x: 1, y: 2, #0]",
           parameters := [("x", PValue.num 1), ("y", PValue.num 2)],
           success := true,
           duration := some 0,
           output := "com.example.Foo > bar [x: 1, y: 2, #0] PASSED",
           errorInfo := none } : TestIterationResult).parameters = parseParameters ps ∧
        (({ index := 0,
            displayName := "bar [x: 1, y: 2, #0]",
            parameters := [("x", PValue.num 1), ("y", PValue.num 2)],
            success := true,
            duration := some 0,
            output := "com.example.Foo > bar [x: 1, y: 2, #0] PASSED",
            errorInfo := none } : TestIterationResult).success = true ↔
          statusText st = "PASSED") :=
  (C2_parseConsoleOutput_spec "com.example.Foo > bar [x: 1, y: 2, #0] PASSED" "bar").2.1
    { index := 0,
      displayName := "bar [x: 1, y: 2, #0]",
      parameters := [("x", PValue.num 1), ("y", PValue.num 2)],
      success := true,
      duration := some 0,
      output := "com.example.Foo > bar [x: 1, y: 2, #0] PASSED",
      errorInfo := none }
    (by decide)

/-- C7: for every workspace path and class name, `parseXmlReport` returns the
empty sequence (and, being a total function, never propagates a fault) when
the report file at `<workspace>/build/test-results/test/TEST-<className>.xml`
is absent, and likewise when reading the file throws. -/
theorem C7_parseXmlReport_missing_report (fs : String → Option (Except String String))
    (workspacePath className : String) :
    (fs (workspacePath ++ "/build/test-results/test/TEST-" ++ className ++ ".xml") = none →
      parseXmlReport fs workspacePath className = []) ∧
    (∀ e, fs (workspacePath ++ "/build/test-results/test/TEST-" ++ className ++ ".xml")
        = some (Except.error e) →
      parseXmlReport fs workspacePath className = []) := by
  constructor
  · intro h
    simp [parseXmlReport, reportPath, h]
  · intro e h
    simp [parseXmlReport, reportPath, h]

/-- Witness for C7: an empty file system and an always-throwing file system,
by the theorem at those inputs. -/
theorem C7_parseXmlReport_missing_report_witness :
    parseXmlReport (fun _ => none) "ws" "Foo" = [] ∧
    parseXmlReport (fun _ => some (Except.error "EACCES")) "ws" "Foo" = [] :=
  ⟨(C7_parseXmlReport_missing_report (fun _ => none) "ws" "Foo").1 rfl,
   (C7_parseXmlReport_missing_report (fun _ => some (Except.error "EACCES")) "ws" "Foo").2
     "EACCES" rfl⟩

/-- C1: whenever the XML path yields at least one iteration,
`parseTestResults` returns that sequence verbatim and is independent of the
console text; only when the XML path yields no iterations does it return the
console parse. -/
theorem C1_parseTestResults_xml_precedence (fs : String → Option (Except String String))
    (consoleOutput consoleOutput2 testName className workspacePath : String) :
    (parseXmlReport fs workspacePath className ≠ [] →
      parseTestResults fs consoleOutput testName className workspacePath
        = parseXmlReport fs workspacePath className ∧
      parseTestResults fs consoleOutput testName className workspacePath
        = parseTestResults fs consoleOutput2 testName className workspacePath) ∧
    (parseXmlReport fs workspacePath className = [] →
      parseTestResults fs consoleOutput testName className workspacePath
        = parseConsoleOutput consoleOutput testName) := by
  constructor
  · intro h
    have hlen : 0 < (parseXmlReport fs workspacePath className).length :=
      List.length_pos.mpr h
    constructor <;> simp [parseTestResults, if_pos hlen]
  · intro h
    simp [parseTestResults, h]

/-- Witness for C1: the spec's reconciliation scenario — the XML report shows
iteration `bar [x: 1, #0]` of class `Foo` with no failure element while the
console text reports the same iteration as FAILED; the XML-derived
(successful) result is returned and the console text is irrelevant. -/
theorem C1_parseTestResults_xml_precedence_witness :
    (parseTestResults fsSample "Foo > bar [x: 1, #0] FAILED" "bar" "Foo" "ws"
        = parseXmlReport fsSample "ws" "Foo" ∧
      parseTestResults fsSample "Foo > bar [x: 1, #0] FAILED" "bar" "Foo" "ws"
        = parseTestResults fsSample "no such output" "bar" "Foo" "ws") ∧
    (parseXmlReport fsSample "ws" "Foo").map (fun r => r.success) = [true] ∧
    (parseConsoleOutput "Foo > bar [x: 1, #0] FAILED" "bar").map (fun r => r.success)
      = [false] :=
  ⟨(C1_parseTestResults_xml_precedence fsSample "Foo > bar [x: 1, #0] FAILED"
      "no such output" "bar" "Foo" "ws").1 (by decide),
   by decide, by decide⟩

/-- Sample source with an abstract specification class used by the C9
theorem and witness. -/
def abstractSample : String :=
  "abstract class BaseSpec extends spock.lang.Specification \x7b\n  def \"base test\"() \x7b\n    expect: true\n  \x7d\n\x7d\n"

/-- The method-candidate step never changes the class identity fields. -/
theorem d1PushMethod_preserves (lines : List String) (i : Nat) (c : D1Class) :
    (d1PushMethod lines i c).name = c.name ∧ (d1PushMethod lines i c).line = c.line ∧
    (d1PushMethod lines i c).isAbstract = c.isAbstract := by
  unfold d1PushMethod
  split
  · dsimp only
    split_ifs <;> exact ⟨rfl, rfl, rfl⟩
  · exact ⟨rfl, rfl, rfl⟩

/-- The class held as current when the scan proceeds ends up in the output
with its identity fields unchanged (its methods may still grow). -/
theorem d1Loop_cur_descendant (lines : List String) :
    ∀ fuel i cur inC bal seen c, cur = some c →
      ∃ d ∈ d1Loop lines fuel i cur inC bal seen,
        d.name = c.name ∧ d.line = c.line ∧ d.isAbstract = c.isAbstract := by
  intro fuel
  induction fuel with
  | zero =>
    intro i cur inC bal seen c hc
    exact ⟨c, by simp [d1Loop, hc], rfl, rfl, rfl⟩
  | succ n ih =>
    intro i cur inC bal seen c hc
    subst hc
    unfold d1Loop
    dsimp only
    split
    case isTrue hi =>
      cases hcls : classRegexMatch (jsTrim (lineAt lines i)) with
      | some nm =>
        simp only [hcls]
        split
        · exact ⟨c, by simp, rfl, rfl, rfl⟩
        · exact ⟨c, by simp, rfl, rfl, rfl⟩
      | none =>
        simp only [hcls]
        split
        case isTrue hin =>
          have hp := d1PushMethod_preserves lines i c
          split
          case isTrue hclose =>
            exact ⟨d1PushMethod lines i c, by simp, hp.1, hp.2.1, hp.2.2⟩
          case isFalse hclose =>
            obtain ⟨d, hd, h1, h2, h3⟩ := ih (i + 1) _ inC _ _ (d1PushMethod lines i c) rfl
            exact ⟨d, hd, h1.trans hp.1, h2.trans hp.2.1, h3.trans hp.2.2⟩
        case isFalse hin =>
          exact ih (i + 1) _ inC bal seen c rfl
    case isFalse hi =>
      exact ⟨c, by simp, rfl, rfl, rfl⟩

/-- Every line matching the class pattern gives rise to one recorded class
with that name, that declaration line, and the abstract flag read off the
trimmed line (the short variant creates a class for every matching line). -/
theorem d1Loop_records_class (lines : List String) :
    ∀ fuel i cur inC bal seen j nm, i ≤ j → j < lines.length → j < i + fuel →
      classRegexMatch (jsTrim (lineAt lines j)) = some nm →
      ∃ d ∈ d1Loop lines fuel i cur inC bal seen,
        d.name = nm ∧ d.line = j ∧
        d.isAbstract = strStarts (jsTrim (lineAt lines j)) "abstract" := by
  intro fuel
  induction fuel with
  | zero =>
    intro i cur inC bal seen j nm h1 h2 h3 h4
    omega
  | succ n ih =>
    intro i cur inC bal seen j nm hij hjl hjf hcls
    unfold d1Loop
    dsimp only
    rw [if_pos (show i < lines.length by omega)]
    rcases Nat.eq_or_lt_of_le hij with rfl | hlt
    · simp only [hcls]
      split
      case isTrue hclose =>
        exact ⟨⟨nm, i, lineRange i (lineAt lines i), [],
          strStarts (jsTrim (lineAt lines i)) "abstract"⟩, by simp, rfl, rfl, rfl⟩
      case isFalse hclose =>
        obtain ⟨d, hd, h1, h2, h3⟩ := d1Loop_cur_descendant lines n (i + 1) _ true _ _
          ⟨nm, i, lineRange i (lineAt lines i), [],
            strStarts (jsTrim (lineAt lines i)) "abstract"⟩ rfl
        exact ⟨d, List.mem_append.mpr (Or.inr hd), h1, h2, h3⟩
    · have IH := fun cur inC bal seen =>
        ih (i + 1) cur inC bal seen j nm (by omega) hjl (by omega) hcls
      cases hc2 : classRegexMatch (jsTrim (lineAt lines i)) with
      | some nm2 =>
        simp only [hc2]
        split
        · obtain ⟨d, hd, hh⟩ := IH none false 0 false
          exact ⟨d, List.mem_append.mpr (Or.inr (List.mem_cons_of_mem _ hd)), hh⟩
        · obtain ⟨d, hd, hh⟩ := IH _ true _ _
          exact ⟨d, List.mem_append.mpr (Or.inr hd), hh⟩
      | none =>
        simp only [hc2]
        split
        case isTrue hin =>
          split
          case isTrue hclose =>
            obtain ⟨d, hd, hh⟩ := IH none false 0 false
            exact ⟨d, List.mem_append.mpr (Or.inr hd), hh⟩
          case isFalse hclose =>
            obtain ⟨d, hd, hh⟩ := IH _ inC _ _
            exact ⟨d, hd, hh⟩
        case isFalse hin =>
          obtain ⟨d, hd, hh⟩ := IH cur inC bal seen
          exact ⟨d, hd, hh⟩

/-- C9: every class-declaration line with a leading `abstract` keyword that
matches the class pattern is recorded by the short-variant
`parseTestsInFile` with `isAbstract = true`; and the methods of such a class
are still recovered, as on the sample abstract class. -/
theorem C9_abstract_class_recorded (content : String) (i : Nat) (nm : String)
    (hi : i < (jsSplit content "\n").length)
    (hm : classRegexMatch (jsTrim (lineAt (jsSplit content "\n") i)) = some nm)
    (habs : strStarts (jsTrim (lineAt (jsSplit content "\n") i)) "abstract" = true) :
    (∃ d ∈ d1ParseTestsInFile content, d.name = nm ∧ d.line = i ∧ d.isAbstract = true) ∧
    (d1ParseTestsInFile abstractSample).map
      (fun c => (c.name, c.isAbstract, c.methods.map (fun m => m.name)))
      = [("BaseSpec", true, ["base test"])] := by
  constructor
  · obtain ⟨d, hd, h1, h2, h3⟩ := d1Loop_records_class (jsSplit content "\n")
      (jsSplit content "\n").length 0 none false 0 false i nm (Nat.zero_le i) hi
      (by omega) hm
    refine ⟨d, ?_, h1, h2, by rw [h3, habs]⟩
    simpa [d1ParseTestsInFile] using hd
  · decide

/-- Witness for C9 at the sample abstract class, by the theorem at line 0 of
that source. -/
theorem C9_abstract_class_recorded_witness :
    (∃ d ∈ d1ParseTestsInFile abstractSample,
      d.name = "BaseSpec" ∧ d.line = 0 ∧ d.isAbstract = true) ∧
    (d1ParseTestsInFile abstractSample).map
      (fun c => (c.name, c.isAbstract, c.methods.map (fun m => m.name)))
      = [("BaseSpec", true, ["base test"])] :=
  C9_abstract_class_recorded abstractSample 0 "BaseSpec" (by decide) (by decide) (by decide)

/-- Both arms of `parseTestMethod` keep the supplied method name. -/
theorem d2ParseTestMethod_name (lines : List String) (i : Nat) (nmx : String) :
    (d2ParseTestMethod lines i nmx).name = nmx := by
  unfold d2ParseTestMethod
  split <;> rfl

/-- Both arms of `parseTestMethod` record the supplied start line. -/
theorem d2ParseTestMethod_line (lines : List String) (i : Nat) (nmx : String) :
    (d2ParseTestMethod lines i nmx).line = i := by
  unfold d2ParseTestMethod
  split <;> rfl

/-- A line read by the loops is a line of the input. -/
theorem lineAt_mem (lines : List String) (i : Nat) (hi : i < lines.length) :
    lineAt lines i ∈ lines := by
  have h : lineAt lines i = lines[i] := by
    simp [lineAt, List.getD_eq_getElem?_getD, List.getElem?_eq_getElem hi]
  rw [h]
  exact List.getElem_mem hi

/-- The method-candidate step only adds well-formed method names. -/
theorem d2PushMethod_mok (lines : List String) (i : Nat) (c : D2Class)
    (hi : i < lines.length)
    (hc : ∀ m ∈ c.methods, methodNameOK lines m) :
    ∀ m ∈ (d2PushMethod lines i c).methods, methodNameOK lines m := by
  intro m hm
  unfold d2PushMethod at hm
  cases hh : methodHeaderMatch (jsTrim (lineAt lines i)) with
  | none =>
    rw [hh] at hm
    exact hc m hm
  | some tr =>
    obtain ⟨cont, isQ, br⟩ := tr
    rw [hh] at hm
    dsimp only at hm
    split_ifs at hm with h1 h2
    · rcases List.mem_append.mp hm with hm | hm
      · exact hc m hm
      · have hmeq : m = d2ParseTestMethod lines i (jsTrim cont) := by simpa using hm
        subst hmeq
        rw [methodNameOK, d2ParseTestMethod_name, d2ParseTestMethod_line]
        exact ⟨h1.2, h1.1, hi, cont, isQ, br, hh, rfl, h2.1, h2.2⟩
    · exact hc m hm
    · exact hc m hm

/-- Every class emitted by the long-variant loop carries only well-formed
method names, provided the current class does. -/
theorem d2Loop_methods_ok (lines : List String) :
    ∀ fuel i cur inC bal seen nest,
      (∀ c, cur = some c → ∀ m ∈ c.methods, methodNameOK lines m) →
      ∀ cls ∈ d2Loop lines fuel i cur inC bal seen nest,
        ∀ m ∈ cls.methods, methodNameOK lines m := by
  intro fuel
  induction fuel with
  | zero =>
    intro i cur inC bal seen nest hcur cls hcls
    cases cur with
    | none => simp [d2Loop] at hcls
    | some c =>
      simp [d2Loop] at hcls
      rw [hcls]
      exact hcur c rfl
  | succ n ih =>
    intro i cur inC bal seen nest hcur cls hcls
    unfold d2Loop at hcls
    dsimp only at hcls
    split at hcls
    case isTrue hi =>
      have hcur2 : ∀ c, d2CurStep lines i inC nest cur = some c →
          ∀ m ∈ c.methods, methodNameOK lines m := by
        intro c hc
        unfold d2CurStep at hc
        split at hc
        · cases cur with
          | none => simp at hc
          | some c0 =>
            simp only [Option.some.injEq] at hc
            rw [← hc]
            exact d2PushMethod_mok lines i c0 hi (hcur c0 rfl)
        · exact hcur c hc
      have hnone : ∀ c, (none : Option D2Class) = some c →
          ∀ m ∈ c.methods, methodNameOK lines m := by
        intro c hc
        simp at hc
      cases hc2 : classRegexMatch (jsTrim (lineAt lines i)) with
      | some nm2 =>
        simp only [hc2] at hcls
        split at hcls
        case isTrue hcond =>
          split at hcls
          case isTrue hclose =>
            rcases List.mem_append.mp hcls with h | h
            · rcases Option.mem_toList.mp h with h2
              exact hcur cls h2
            · rcases List.mem_cons.mp h with rfl | h2
              · intro m hm
                simp at hm
              · exact ih (i + 1) none false 0 false 0 hnone cls h2
          case isFalse hclose =>
            rcases List.mem_append.mp hcls with h | h
            · exact hcur cls (Option.mem_toList.mp h)
            · refine ih (i + 1) _ true _ _ 0 ?_ cls h
              intro c hc
              rw [Option.some.injEq] at hc
              rw [← hc]
              intro m hm
              simp at hm
        case isFalse hcond =>
          split at hcls
          case isTrue hin =>
            split at hcls
            case isTrue => exact ih (i + 1) cur inC _ _ _ hcur cls hcls
            case isFalse hx => exact absurd (by omega) hx
          case isFalse hin =>
            exact ih (i + 1) cur inC bal seen nest hcur cls hcls
      | none =>
        simp only [hc2] at hcls
        split at hcls
        case isTrue hin =>
          split at hcls
          case isTrue hnest =>
            exact ih (i + 1) _ inC _ _ _ hcur2 cls hcls
          case isFalse hnest =>
            split at hcls
            case isTrue hclose =>
              rcases List.mem_append.mp hcls with h | h
              · exact hcur2 cls (Option.mem_toList.mp h)
              · exact ih (i + 1) none false 0 false 0 hnone cls h
            case isFalse hclose =>
              exact ih (i + 1) _ inC _ _ nest hcur2 cls hcls
        case isFalse hin =>
          exact ih (i + 1) cur inC bal seen nest hcur cls hcls
    case isFalse hi =>
      cases cur with
      | none => simp at hcls
      | some c =>
        simp at hcls
        rw [hcls]
        exact hcur c rfl

/-- C4 (amended): every method recovered by the long-variant
`parseTestsInFile` has a name that is not one of the four lifecycle names,
is non-empty, and equals the JavaScript-trimmed captured content (quoted
string content or bare identifier) of the method heading standing on the
method's own declaration line; that heading is quoted or confirmed by a
nearby Spock block label, and has an opening brace on the line or soon
after. -/
theorem C4_method_names_amended (content : String) :
    ∀ cls ∈ d2ParseTestsInFile content, ∀ m ∈ cls.methods,
      m.name ∉ lifecycleNames ∧ m.name ≠ "" ∧
      m.line < (jsSplit content "\n").length ∧
      ∃ cont isQ br,
        methodHeaderMatch (jsTrim (lineAt (jsSplit content "\n") m.line))
          = some (cont, isQ, br) ∧
        m.name = jsTrim cont ∧
        (isQ || blockLabelNearby (jsSplit content "\n") m.line) = true ∧
        (br || d2HasOpenBraceNext (jsSplit content "\n") m.line) = true := by
  intro cls hcls m hm
  have h := d2Loop_methods_ok (jsSplit content "\n") (jsSplit content "\n").length 0 none
    false 0 false 0 (by intro c hc; simp at hc) cls
    (by simpa [d2ParseTestsInFile] using hcls) m hm
  rw [methodNameOK] at h
  exact h

/-- C4 counterexample: the heading `def " trimmed "() {` is quoted with
content `" trimmed "`, yet the recovered method name is the trimmed
`"trimmed"` — not exactly the quoted string content as the claim states. -/
theorem C4_method_names_counterexample :
    (d2ParseTestsInFile c4TrimSample).map (fun c => c.methods.map (fun m => m.name))
      = [["trimmed"]] ∧
    methodHeaderMatch (jsTrim (lineAt (jsSplit c4TrimSample "\n") 1))
      = some (" trimmed ", true, true) ∧
    (" trimmed " : String) ≠ "trimmed" :=
  ⟨by decide, by decide, by decide⟩

/-- Witness for C4 (amended) at the sample source, instantiated at its single
class and method, by the theorem. -/
theorem C4_method_names_amended_witness :
    ((((d2ParseTestsInFile c4Sample).headD default).methods.headD default).name
        ∉ lifecycleNames) ∧
    (((d2ParseTestsInFile c4Sample).headD default).methods.headD default).name ≠ "" ∧
    (((d2ParseTestsInFile c4Sample).headD default).methods.headD default).line
      < (jsSplit c4Sample "\n").length ∧
    ∃ cont isQ br,
      methodHeaderMatch (jsTrim (lineAt (jsSplit c4Sample "\n")
          (((d2ParseTestsInFile c4Sample).headD default).methods.headD default).line))
        = some (cont, isQ, br) ∧
      (((d2ParseTestsInFile c4Sample).headD default).methods.headD default).name
        = jsTrim cont ∧
      (isQ || blockLabelNearby (jsSplit c4Sample "\n")
          (((d2ParseTestsInFile c4Sample).headD default).methods.headD default).line)
        = true ∧
      (br || d2HasOpenBraceNext (jsSplit c4Sample "\n")
          (((d2ParseTestsInFile c4Sample).headD default).methods.headD default).line)
        = true :=
  C4_method_names_amended c4Sample ((d2ParseTestsInFile c4Sample).headD default)
    (by decide)
    (((d2ParseTestsInFile c4Sample).headD default).methods.headD default)
    (by decide)
